import Mathlib

/-!
Verification development for the rule-driven ad-detection engine
(`src/content/engine/detector.ts`, the validator / label-led-detection
modules bundled with `src/content/engine/metricsCollector.ts`, and
`src/content/engine/configValidator.ts`).

The engine operates on a browser DOM through CSS selectors.  Following the
design notes of the specification (Tree Adapter abstraction), the DOM is
embedded as a finite tree of nodes carrying a numeric identity, a tag name,
an attribute list, the element's own (direct) text, and a child list; a CSS
selector is embedded as either a node predicate (a selector that parses) or
an opaque invalid selector (one whose use throws, mirroring the
`querySelector` exceptions the engine catches).  JavaScript numbers are
embedded as rationals.  Regular-expression matching for the two concrete
patterns the engine builds (`\b<literal>\b` and `<literal>`, both
case-insensitive, on escaped literals) is embedded as whole-word and
substring matching on lower-cased strings; the free-form validator patterns,
URL parsing and URL cleaning are abstracted as an environment of pure
functions (`JsEnv`).  Wall-clock fields (`matchedAt`, `detectedAt`), log
output and the advisory metrics collector (which never influences detection
results) are not modelled.
-/

/-- A DOM node: identity, tag name, attributes, direct text content, and
children.  Node identity (JavaScript object identity, used by the engine for
deduplication and seen-sets) is modelled by the `nid` field; in a
well-formed document all `nid`s are distinct.  `textContent` concatenates
the direct text before the children's text. -/
inductive DomNode : Type where
  | node (nid : Nat) (tag : String) (attrs : List (String × String))
         (directText : String) (children : List DomNode)

def DomNode.nid : DomNode → Nat
  | .node i _ _ _ _ => i

def DomNode.tag : DomNode → String
  | .node _ t _ _ _ => t

def DomNode.attrs : DomNode → List (String × String)
  | .node _ _ a _ _ => a

def DomNode.directText : DomNode → String
  | .node _ _ _ d _ => d

def DomNode.children : DomNode → List DomNode
  | .node _ _ _ _ cs => cs

mutual
/-- Structural (object) equality test for DOM nodes. -/
def DomNode.beq : DomNode → DomNode → Bool
  | .node i t a d cs, .node i2 t2 a2 d2 cs2 =>
    i == i2 && t == t2 && a == a2 && d == d2 && DomNode.beqList cs cs2
def DomNode.beqList : List DomNode → List DomNode → Bool
  | [], [] => true
  | c :: cs, e :: es => DomNode.beq c e && DomNode.beqList cs es
  | _, _ => false
end

mutual
theorem DomNode.beq_refl : (a : DomNode) → DomNode.beq a a = true
  | .node _ _ _ _ cs => by
    simp only [DomNode.beq, Bool.and_eq_true, beq_self_eq_true, true_and]
    exact DomNode.beqList_refl cs
theorem DomNode.beqList_refl : (l : List DomNode) → DomNode.beqList l l = true
  | [] => rfl
  | c :: cs => by
    simp only [DomNode.beqList, Bool.and_eq_true]
    exact ⟨DomNode.beq_refl c, DomNode.beqList_refl cs⟩
end

mutual
theorem DomNode.eq_of_beq : {a b : DomNode} → DomNode.beq a b = true → a = b
  | .node i t a d cs, .node i2 t2 a2 d2 cs2, h => by
    simp only [DomNode.beq, Bool.and_eq_true, beq_iff_eq] at h
    obtain ⟨⟨⟨⟨h1, h2⟩, h3⟩, h4⟩, h5⟩ := h
    subst h1; subst h2; subst h3; subst h4
    rw [DomNode.eqList_of_beq h5]
theorem DomNode.eqList_of_beq : {l m : List DomNode} → DomNode.beqList l m = true → l = m
  | [], [], _ => rfl
  | c :: cs, e :: es, h => by
    simp only [DomNode.beqList, Bool.and_eq_true] at h
    rw [DomNode.eq_of_beq h.1, DomNode.eqList_of_beq h.2]
end

instance : DecidableEq DomNode := fun a b =>
  if h : DomNode.beq a b = true then .isTrue (DomNode.eq_of_beq h)
  else .isFalse (fun he => by subst he; exact h (DomNode.beq_refl a))

mutual
/-- All strict descendants of a node, in document (pre-)order; this is the
node set a DOM `querySelectorAll` on the node ranges over. -/
def DomNode.descendants : DomNode → List DomNode
  | .node _ _ _ _ cs => DomNode.descList cs
def DomNode.descList : List DomNode → List DomNode
  | [] => []
  | c :: cs => c :: (DomNode.descendants c ++ DomNode.descList cs)
end

mutual
/-- Full text of a subtree (DOM `textContent`): the direct text followed by
the children's text in order. -/
def DomNode.textContent : DomNode → String
  | .node _ _ _ d cs => d ++ DomNode.textContentList cs
def DomNode.textContentList : List DomNode → String
  | [] => ""
  | c :: cs => DomNode.textContent c ++ DomNode.textContentList cs
end

def DomNode.getAttr (n : DomNode) (key : String) : Option String :=
  (n.attrs.find? (fun p => p.1 == key)).map (fun p => p.2)

mutual
/-- Path from a root down to the node with the given identity (inclusive at
both ends), or `none` when the identity does not occur in the subtree. -/
def pathTo : DomNode → Nat → Option (List DomNode)
  | n@(.node _ _ _ _ cs), t =>
    if n.nid == t then some [n]
    else match pathToList cs t with
         | some p => some (n :: p)
         | none => none
def pathToList : List DomNode → Nat → Option (List DomNode)
  | [], _ => none
  | c :: cs, t =>
    match pathTo c t with
    | some p => some p
    | none => pathToList cs t
end

/-- The node followed by its ancestors, nearest first, computed inside the
document `doc` (DOM parent pointers).  A node absent from the document has no
known ancestors. -/
def selfAndAncestors (doc n : DomNode) : List DomNode :=
  match pathTo doc n.nid with
  | some p => p.reverse
  | none => [n]

/-- A CSS selector: either one that parses, embedded as the node predicate
it denotes, or an invalid one, whose every use throws (the string form and
the parse failure are collapsed into the `invalid` constructor; an empty
selector string is also invalid). -/
inductive Selector : Type where
  | valid (pred : DomNode → Bool)
  | invalid

def Selector.isValid : Selector → Bool
  | .valid _ => true
  | .invalid => false

/-- Element `matches` against a selector; an invalid selector matches
nothing (its use is wrapped in a caught `try` wherever this arises). -/
def selMatches : Selector → DomNode → Bool
  | .valid p, n => p n
  | .invalid, _ => false

/-- `scope.querySelectorAll(sel)`: all matching strict descendants in
document order; throws on an invalid selector. -/
def querySelectorAllE (root : DomNode) (s : Selector) : Except Unit (List DomNode) :=
  match s with
  | .invalid => .error ()
  | .valid p => .ok (root.descendants.filter p)

/-- `scope.querySelector(sel)`: first matching strict descendant. -/
def querySelectorE (root : DomNode) (s : Selector) : Except Unit (Option DomNode) :=
  match querySelectorAllE root s with
  | .ok l => .ok l.head?
  | .error e => .error e

/-- `document.querySelectorAll(sel)`: ranges over every element of the
document, the root included. -/
def docQuerySelectorAllE (doc : DomNode) (s : Selector) : Except Unit (List DomNode) :=
  match s with
  | .invalid => .error ()
  | .valid p => .ok ((doc :: doc.descendants).filter p)

def docQuerySelectorE (doc : DomNode) (s : Selector) : Except Unit (Option DomNode) :=
  match docQuerySelectorAllE doc s with
  | .ok l => .ok l.head?
  | .error e => .error e

/-- `n.closest(sel)`: the node itself or its nearest ancestor matching the
selector; throws on an invalid selector. -/
def closestE (doc n : DomNode) (s : Selector) : Except Unit (Option DomNode) :=
  match s with
  | .invalid => .error ()
  | .valid p => .ok ((selfAndAncestors doc n).find? p)

/-- Abstracted JavaScript runtime facilities: free-form regex testing (for
validator `pattern`s, case-insensitive), URL parsing (`new URL`), and the
tracking-parameter-stripping round trip of the `url-clean` transform (the
original returns the input unchanged when parsing fails, which is folded
into the function). -/
structure UrlParts where
  protocol : String
  hostname : String
deriving DecidableEq

structure JsEnv where
  regexTest : String → String → Bool
  parseUrl : String → Option UrlParts
  urlClean : String → String

def isWordChar (c : Char) : Bool := c.isAlphanum || c == '_'

def wordCharAt (h : List Char) (i : Nat) : Bool :=
  match h[i]? with
  | some c => isWordChar c
  | none => false

/-- A regex `\b` word boundary at position `i` of `h`: exactly one of the
two surrounding positions holds a word character. -/
def boundaryAt (h : List Char) (i : Nat) : Bool :=
  (if i == 0 then false else wordCharAt h (i - 1)) != wordCharAt h i

/-- Case-sensitive substring test (JavaScript `String.prototype.includes`). -/
def strContains (haystack needle : String) : Bool :=
  let h := haystack.toList
  let n := needle.toList
  (List.range (h.length + 1)).any (fun i => (h.drop i).take n.length == n)

/-- The case-insensitive literal-substring regex the label-led detector
builds: `new RegExp(escapeRegex(needle), 'i')`. -/
def strContainsCI (needle haystack : String) : Bool :=
  strContains haystack.toLower needle.toLower

/-- The case-insensitive whole-word regex the label-led detector builds:
`new RegExp('\\b' + escapeRegex(needle) + '\\b', 'i')`. -/
def wordPatternTest (needle haystack : String) : Bool :=
  let h := haystack.toLower.toList
  let n := needle.toLower.toList
  (List.range (h.length + 1)).any (fun i =>
    (h.drop i).take n.length == n && boundaryAt h i && boundaryAt h (i + n.length))

/-! ## Data model (`shared/types/detection`) -/

deriving instance DecidableEq for Except

/-- The logical fields an ad candidate can carry (`AdField`). -/
inductive AdField : Type where
  | label | advertiser | advertiserHandle | headline | body | cta
  | destinationUrl | image | video
deriving DecidableEq

def AdField.asString : AdField → String
  | .label => "label"
  | .advertiser => "advertiser"
  | .advertiserHandle => "advertiserHandle"
  | .headline => "headline"
  | .body => "body"
  | .cta => "cta"
  | .destinationUrl => "destinationUrl"
  | .image => "image"
  | .video => "video"

/-- An extracted value: a string, or a list of media URLs. -/
inductive FieldValue : Type where
  | str (s : String)
  | strs (l : List String)
deriving DecidableEq

/-- Extracted values per candidate (`FieldData`); absent string fields are
`none`, media lists start empty. -/
structure FieldData where
  label : Option String := none
  advertiser : Option String := none
  advertiserHandle : Option String := none
  headline : Option String := none
  body : Option String := none
  cta : Option String := none
  destinationUrl : Option String := none
  images : List String := []
  videos : List String := []
deriving DecidableEq

/-- A validation rule, mirroring the duck-typed source record: a `type`
string plus the optional per-variant fields. -/
structure ValidationRule where
  vtype : String
  weight : ℚ
  field : Option AdField := none
  pattern : Option String := none
  minLength : Option Nat := none
deriving DecidableEq

structure ValidationResult where
  valid : Bool
  confidence : ℚ
  reasons : List String
  fieldScores : List (AdField × ℚ)
deriving DecidableEq

/-- A container rule, mirroring the duck-typed source record: a `type`
string (`css` / `label-led` / `attribute`) with per-variant optional fields
and the shared negative filters. -/
structure ContainerRule where
  id : String
  rtype : String
  score : ℚ
  selector : Option Selector := none
  labelTexts : Option (List String) := none
  containerSelector : Option Selector := none
  scopeSelector : Option Selector := none
  attributeKey : Option String := none
  attributeValue : Option String := none
  excludeSelectors : Option (List Selector) := none
  excludeIfContains : Option (List String) := none
  excludeAncestors : Option (List Selector) := none

structure FieldRule where
  id : String
  field : AdField
  selector : Selector
  attr : Option String := none
  score : ℚ
  transform : Option String := none

/-- `PlatformSelectorConfig`.  `minConfidence` is a required number in the
source type; `validators` is optional there (`undefined` and `[]` behave
differently in the config validator), hence the `Option`. -/
structure PlatformSelectorConfig where
  platform : String
  version : Option String := none
  containerRules : List ContainerRule
  fieldRules : List FieldRule
  validators : Option (List ValidationRule) := none
  minConfidence : ℚ
  containerScoreThreshold : Option ℚ := none
  adaptiveThreshold : Bool := false
  debug : Bool := false

/-- A phase-1 result (`ContainerMatch`); the wall-clock `matchedAt` field is
not modelled. -/
structure ContainerMatch where
  container : DomNode
  ruleId : String
  ruleType : String
  score : ℚ
  labelElement : Option DomNode := none
  labelConfidence : Option ℚ := none
deriving DecidableEq

/-- A recorded extraction attempt result (`FieldExtraction`); the redundant
`selector` echo of the rule's selector string is not modelled. -/
structure FieldExtraction where
  field : AdField
  value : FieldValue
  ruleId : String
  score : ℚ
deriving DecidableEq

/-- An accepted candidate (`AdCandidate`); the host-ambient `pageUrl`,
`detectedAt` and URL-derived `placement` fields are not modelled. -/
structure AdCandidate where
  container : DomNode
  containerMatch : ContainerMatch
  fields : FieldData
  fieldExtractions : List FieldExtraction
  validation : ValidationResult
  platform : String
deriving DecidableEq

/-! ## Validators (`validators.ts`, bundled in `metricsCollector.ts`) -/

def getFieldValue (field : AdField) (fields : FieldData) : Option FieldValue :=
  match field with
  | .label => fields.label.map .str
  | .advertiser => fields.advertiser.map .str
  | .advertiserHandle => fields.advertiserHandle.map .str
  | .headline => fields.headline.map .str
  | .body => fields.body.map .str
  | .cta => fields.cta.map .str
  | .destinationUrl => fields.destinationUrl.map .str
  | .image => some (.strs fields.images)
  | .video => some (.strs fields.videos)

/-- Outcome of one validator: pass flag, reason message, awarded score. -/
structure VCheck where
  passed : Bool
  message : String
  score : ℚ
deriving DecidableEq

/-- `validateRequiredField`: present and non-empty (strings additionally
trim-non-empty, media lists non-empty); awards the weight or zero. -/
def validateRequiredField (field : AdField) (fields : FieldData) (weight : ℚ) : VCheck :=
  let passed := match getFieldValue field fields with
    | none => false
    | some (.str s) => !(s == "") && !(s.trim == "")
    | some (.strs l) => !l.isEmpty
  { passed := passed,
    message := if passed then "Field " ++ field.asString ++ " present"
               else "Missing required field " ++ field.asString,
    score := if passed then weight else 0 }

/-- `validateLabelPattern`: case-insensitive regex test of the label text. -/
def validateLabelPattern (env : JsEnv) (pattern : String) (fields : FieldData) (weight : ℚ) : VCheck :=
  let label := fields.label.getD ""
  let passed := env.regexTest pattern label
  { passed := passed,
    message := if passed then "Label matches pattern: " ++ pattern
               else "Label does not match pattern: " ++ pattern,
    score := if passed then weight else 0 }

/-- `validateUrl`: parses and requires an http(s) protocol. -/
def validateUrl (env : JsEnv) (url : Option String) (weight : ℚ) : VCheck :=
  match url with
  | none => { passed := false, message := "URL is missing or empty", score := 0 }
  | some u =>
    if u.trim == "" then { passed := false, message := "URL is missing or empty", score := 0 }
    else
      match env.parseUrl u with
      | none => { passed := false, message := "Invalid URL format: " ++ u, score := 0 }
      | some parts =>
        let ok := parts.protocol == "http:" || parts.protocol == "https:"
        { passed := ok,
          message := if ok then "Valid URL: " ++ parts.hostname
                     else "Invalid URL protocol: " ++ parts.protocol,
          score := if ok then weight else 0 }

/-- The string a min-text-length validator measures: the field's value when
it is a string, the empty string otherwise. -/
def textFieldOf (field : AdField) (fields : FieldData) : String :=
  match getFieldValue field fields with
  | some (.str s) => s
  | _ => ""

/-- `validateMinTextLength`: full weight at or above the threshold, partial
credit `weight * (length / minLength)` below it. -/
def validateMinTextLength (field : AdField) (fields : FieldData) (minLength : Nat) (weight : ℚ) : VCheck :=
  let text := textFieldOf field fields
  let passed := decide (minLength ≤ text.length)
  { passed := passed,
    message := if passed then "Field " ++ field.asString ++ " has sufficient length"
               else "Field " ++ field.asString ++ " too short",
    score := if passed then weight else weight * ((text.length : ℚ) / (minLength : ℚ)) }

/-- Dispatch of one validator inside `validateAdCandidate`'s loop: `none`
when the validator is skipped with a console warning (missing variant fields
or unknown type), otherwise the check result together with the `fieldScores`
bucket it is recorded under. -/
def runValidator (env : JsEnv) (fields : FieldData) (v : ValidationRule) :
    Option (VCheck × AdField) :=
  match v.vtype with
  | "required-field" =>
    match v.field with
    | none => none
    | some f => some (validateRequiredField f fields v.weight, f)
  | "label-pattern" =>
    match v.pattern with
    | none => none
    | some p => some (validateLabelPattern env p fields v.weight, .label)
  | "url-valid" => some (validateUrl env fields.destinationUrl v.weight, .destinationUrl)
  | "min-text-length" =>
    match v.field, v.minLength with
    | some f, some m => some (validateMinTextLength f fields m v.weight, f)
    | _, _ => none
  | _ => none

def bumpFieldScore (scores : List (AdField × ℚ)) (f : AdField) (s : ℚ) : List (AdField × ℚ) :=
  match scores with
  | [] => [(f, s)]
  | (g, v) :: rest =>
    if g == f then (g, v + s) :: rest else (g, v) :: bumpFieldScore rest f s

/-- Accumulator of `validateAdCandidate`'s loop. -/
structure VAcc where
  totalScore : ℚ := 0
  maxPossibleScore : ℚ := 0
  reasons : List String := []
  fieldScores : List (AdField × ℚ) := []
deriving DecidableEq

/-- One iteration of `validateAdCandidate`'s loop: the weight always enters
the denominator; a skipped validator contributes nothing else. -/
def validatorStep (env : JsEnv) (fields : FieldData) (acc : VAcc) (v : ValidationRule) : VAcc :=
  let macc := { acc with maxPossibleScore := acc.maxPossibleScore + v.weight }
  match runValidator env fields v with
  | none => macc
  | some (r, bucket) =>
    { totalScore := macc.totalScore + r.score,
      maxPossibleScore := macc.maxPossibleScore,
      reasons := macc.reasons ++ [r.message],
      fieldScores := bumpFieldScore macc.fieldScores bucket r.score }

def runValidatorsAcc (env : JsEnv) (fields : FieldData) (validators : List ValidationRule) : VAcc :=
  validators.foldl (validatorStep env fields) {}

/-- `validateAdCandidate`: runs every validator, computes
`confidence = totalScore / maxPossibleScore` (0 when the denominator is not
positive) and accepts iff `confidence >= minConfidence`; a failing result
gets a below-threshold reason prepended (its numeric rendering is elided). -/
def validateAdCandidate (env : JsEnv) (fields : FieldData)
    (validators : List ValidationRule) (minConfidence : ℚ) : ValidationResult :=
  let acc := runValidatorsAcc env fields validators
  let confidence := if 0 < acc.maxPossibleScore then acc.totalScore / acc.maxPossibleScore else 0
  let valid := minConfidence ≤ confidence
  { valid := valid,
    confidence := confidence,
    reasons := if valid then acc.reasons else "Confidence below threshold" :: acc.reasons,
    fieldScores := acc.fieldScores }

def truthyStr : Option String → Bool
  | none => false
  | some s => !(s == "")

/-- `computeConfidence`: the default completeness heuristic used when no
validators are configured. -/
def computeConfidence (fields : FieldData) : ℚ :=
  let score :=
    (if truthyStr fields.advertiser then (0.3 : ℚ) else 0)
    + (if truthyStr fields.destinationUrl then 0.3 else 0)
    + (if truthyStr fields.label then 0.2 else 0)
    + (if truthyStr fields.headline then 0.2 else 0)
    + (if (match fields.body with | some s => !(s.trim == "") | none => false) then 0.1 else 0)
    + (if !fields.images.isEmpty then 0.1 else 0)
    + (if !fields.videos.isEmpty then 0.1 else 0)
  let maxScore : ℚ := 0.3 + 0.3 + 0.2 + 0.2 + 0.1 + 0.1 + 0.1
  if 0 < maxScore then score / maxScore else 0

/-! ## Label-led detection (`labelLedDetection.ts`, bundled in
`metricsCollector.ts`) -/

/-- `getDirectText`: the text directly inside an element (not from child
elements), trimmed. -/
def getDirectText (n : DomNode) : String := n.directText.trim

mutual
/-- `getTextDepth`'s DFS: depth of the shallowest element (the start node at
the given depth) whose direct text contains the search text
(case-insensitive substring); `none` models the `Infinity` result. -/
def getTextDepth (searchText : String) : DomNode → Nat → Option Nat
  | n@(.node _ _ _ _ cs), d =>
    if strContainsCI searchText (getDirectText n) then some d
    else getTextDepthList searchText cs (d + 1)
def getTextDepthList (searchText : String) : List DomNode → Nat → Option Nat
  | [], _ => none
  | c :: cs, d =>
    match getTextDepth searchText c d, getTextDepthList searchText cs d with
    | some a, some b => some (min a b)
    | some a, none => some a
    | none, r => r
end

mutual
/-- `findLabelChild`: first element (DFS, the start node included) whose
direct text contains the search text. -/
def findLabelChild (searchText : String) : DomNode → Option DomNode
  | n@(.node _ _ _ _ cs) =>
    if strContainsCI searchText (getDirectText n) then some n
    else findLabelChildList searchText cs
def findLabelChildList (searchText : String) : List DomNode → Option DomNode
  | [] => none
  | c :: cs =>
    match findLabelChild searchText c with
    | some r => some r
    | none => findLabelChildList searchText cs
end

/-- The tag union `findLabelElements` queries:
`span, div, p, a, button, label, h1, ..., h6`. -/
def textElementTags : List String :=
  ["span", "div", "p", "a", "button", "label", "h1", "h2", "h3", "h4", "h5", "h6"]

/-- One entry of `findLabelElements`'s result. -/
structure LabelEntry where
  element : DomNode
  confidence : ℚ
  labelElement : DomNode
deriving DecidableEq

/-- Proximity scoring for one matched element and the label text that
matched it: direct whole-word hit scores 1.0, otherwise the substring depth
grades 0.9 / 0.8 / 0.7 (an `Infinity` depth lands in the deep branch). -/
def labelEntryFor (e : DomNode) (labelText : String) : LabelEntry :=
  if wordPatternTest labelText (getDirectText e) then
    { element := e, confidence := 1, labelElement := e }
  else
    let child := (findLabelChild labelText e).getD e
    match getTextDepth labelText e 0 with
    | some d =>
      if d ≤ 2 then { element := e, confidence := 0.9, labelElement := child }
      else if d ≤ 4 then { element := e, confidence := 0.8, labelElement := child }
      else { element := e, confidence := 0.7, labelElement := child }
    | none => { element := e, confidence := 0.7, labelElement := child }

/-- `findLabelElements`: scans the text-bearing descendants of the root for
a whole-word, case-insensitive hit of any label text (first matching label
text wins per element) and scores the proximity. -/
def findLabelElements (root : DomNode) (labelTexts : List String) : List LabelEntry :=
  (root.descendants.filter (fun n => textElementTags.contains n.tag.toLower)).filterMap
    (fun e =>
      (labelTexts.find? (fun lt => wordPatternTest lt ((DomNode.textContent e).trim))).map
        (labelEntryFor e))

def containerAttrs : List String :=
  ["data-testid", "data-ad", "data-post", "data-item", "data-card", "role", "id"]

/-- `isLikelyAdContainer`: explicit article/section tags, divs with an
identifying attribute, or divs with 2 to 20 non-script/style children. -/
def isLikelyAdContainer (n : DomNode) : Bool :=
  let t := n.tag.toLower
  if t == "article" || t == "section" then true
  else if t == "div" then
    if containerAttrs.any (fun a => (n.getAttr a).isSome) then true
    else
      let childElements := n.children.filter
        (fun c => c.tag.toUpper != "SCRIPT" && c.tag.toUpper != "STYLE")
      decide (2 ≤ childElements.length) && decide (childElements.length ≤ 20)
  else false

/-- `findContainerFromLabel`: `closest` on an explicit container selector,
else a bounded upward walk (self first) guided by the container heuristic. -/
def findContainerFromLabel (doc : DomNode) (labelEl : DomNode)
    (containerSelector : Option Selector) (maxDepth : Nat) : Except Unit (Option DomNode) :=
  match containerSelector with
  | some s => closestE doc labelEl s
  | none => .ok (((selfAndAncestors doc labelEl).take maxDepth).find? isLikelyAdContainer)

/-- Scope resolution shared by the container-rule runners:
`rule.scopeSelector ? document.querySelector(rule.scopeSelector) :
document.body`. -/
def labelScope (doc : DomNode) (rule : ContainerRule) : Except Unit (Option DomNode) :=
  match rule.scopeSelector with
  | some s => docQuerySelectorE doc s
  | none => .ok (some doc)

/-- The per-label loop of `findContainersByLabel`: walk up from each label
hit, deduplicate containers by identity, score by label confidence. -/
def buildLabelMatches (doc : DomNode) (rule : ContainerRule) (seen : List Nat) :
    List LabelEntry → Except Unit (List ContainerMatch)
  | [] => .ok []
  | entry :: rest =>
    match findContainerFromLabel doc entry.element rule.containerSelector 10 with
    | .error e => .error e
    | .ok none => buildLabelMatches doc rule seen rest
    | .ok (some c) =>
      if seen.contains c.nid then buildLabelMatches doc rule seen rest
      else
        match buildLabelMatches doc rule (c.nid :: seen) rest with
        | .error e => .error e
        | .ok tail =>
          .ok ({ container := c, ruleId := rule.id, ruleType := "label-led",
                 score := rule.score * entry.confidence,
                 labelElement := some entry.labelElement,
                 labelConfidence := some entry.confidence } :: tail)

/-- `findContainersByLabel` (strategy 1 of label-led detection). -/
def findContainersByLabel (doc : DomNode) (rule : ContainerRule) :
    Except Unit (List ContainerMatch) :=
  match rule.labelTexts with
  | none => .ok []
  | some lts =>
    if rule.rtype != "label-led" || lts.isEmpty then .ok []
    else
      match labelScope doc rule with
      | .error e => .error e
      | .ok none => .ok []
      | .ok (some scope) => buildLabelMatches doc rule [] (findLabelElements scope lts)

/-- Re-deduplication of strategy-1 matches against the advanced detector's
own seen set. -/
def dedupBySeen (seen : List Nat) : List ContainerMatch → List ContainerMatch × List Nat
  | [] => ([], seen)
  | m :: rest =>
    if seen.contains m.container.nid then dedupBySeen seen rest
    else
      let r := dedupBySeen (m.container.nid :: seen) rest
      (m :: r.1, r.2)

/-- Inner element loop of the aria-label strategy for one label text. -/
def ariaInner (doc : DomNode) (rule : ContainerRule) (lt : String) (seen : List Nat) :
    List DomNode → Except Unit (List ContainerMatch × List Nat)
  | [] => .ok ([], seen)
  | e :: rest =>
    if strContainsCI lt ((e.getAttr "aria-label").getD "") then
      match (match rule.containerSelector with
             | some s => closestE doc e s
             | none => .ok (some e)) with
      | .error er => .error er
      | .ok none => ariaInner doc rule lt seen rest
      | .ok (some c) =>
        if seen.contains c.nid then ariaInner doc rule lt seen rest
        else
          match ariaInner doc rule lt (c.nid :: seen) rest with
          | .error er => .error er
          | .ok r =>
            .ok ({ container := c, ruleId := rule.id ++ "-aria", ruleType := "label-led",
                   score := rule.score * 0.95 } :: r.1, r.2)
    else ariaInner doc rule lt seen rest

/-- Outer label-text loop of the aria-label strategy. -/
def ariaOuter (doc : DomNode) (rule : ContainerRule) (seen : List Nat) :
    List String → Except Unit (List ContainerMatch)
  | [] => .ok []
  | lt :: rest =>
    match ariaInner doc rule lt seen
        ((doc :: doc.descendants).filter (fun n => (n.getAttr "aria-label").isSome)) with
    | .error er => .error er
    | .ok r =>
      match ariaOuter doc rule r.2 rest with
      | .error er => .error er
      | .ok more => .ok (r.1 ++ more)

/-- `findContainersByLabelAdvanced`: strategy 1 (text labels) followed by
strategy 2 (aria-labels at 0.95 of the rule score), sharing one seen set. -/
def findContainersByLabelAdvanced (doc : DomNode) (rule : ContainerRule) :
    Except Unit (List ContainerMatch) :=
  match rule.labelTexts with
  | none => .ok []
  | some lts =>
    if rule.rtype != "label-led" then .ok []
    else
      match findContainersByLabel doc rule with
      | .error e => .error e
      | .ok direct =>
        let strat1 := dedupBySeen [] direct
        match ariaOuter doc rule strat1.2 lts with
        | .error e => .error e
        | .ok aria => .ok (strat1.1 ++ aria)

/-! ## Container detection (`detector.ts`, phase 1) -/

/-- `findContainersByCss`. -/
def findContainersByCss (rule : ContainerRule) (scope : DomNode) :
    Except Unit (List ContainerMatch) :=
  match rule.selector with
  | none => .ok []
  | some s =>
    match querySelectorAllE scope s with
    | .error e => .error e
    | .ok els =>
      .ok (els.map (fun e =>
        { container := e, ruleId := rule.id, ruleType := "css", score := rule.score }))

/-- `findContainersByAttribute`: queries by attribute presence, or by exact
attribute value when one is configured (the engine builds the selector
string `[key]` or `[key="value"]`; its semantics are modelled directly). -/
def findContainersByAttribute (rule : ContainerRule) (scope : DomNode) :
    List ContainerMatch :=
  match rule.attributeKey with
  | none => []
  | some key =>
    let els := scope.descendants.filter (fun n =>
      match rule.attributeValue with
      | some v => n.getAttr key == some v
      | none => (n.getAttr key).isSome)
    els.map (fun e =>
      { container := e, ruleId := rule.id, ruleType := "attribute", score := rule.score })

/-- First negative filter of `applyNegativeFilters`: drop a match when the
container itself or any descendant matches an exclude selector; an invalid
exclude selector is caught with a warning and excludes nothing.  The
source's emptiness pre-check is omitted: filtering with an empty selector
list keeps every match. -/
def passesExcludeSelectors (rule : ContainerRule) (m : ContainerMatch) : Bool :=
  (rule.excludeSelectors.getD []).all (fun s =>
    match s with
    | .invalid => true
    | .valid p => !(p m.container) && !(m.container.descendants.any p))

/-- Second negative filter: drop a match whose full text contains any
excluded phrase (case-sensitive `includes`). -/
def passesExcludeIfContains (rule : ContainerRule) (m : ContainerMatch) : Bool :=
  !((rule.excludeIfContains.getD []).any (fun phrase =>
      strContains m.container.textContent phrase))

/-- Third negative filter: drop a match when `closest` finds the container
itself or an ancestor matching an excluded ancestor selector; invalid
selectors are caught and exclude nothing. -/
def passesExcludeAncestors (doc : DomNode) (rule : ContainerRule) (m : ContainerMatch) : Bool :=
  (rule.excludeAncestors.getD []).all (fun s =>
    match s with
    | .invalid => true
    | .valid p => ((selfAndAncestors doc m.container).find? p).isNone)

def applyNegativeFilters (doc : DomNode) (ms : List ContainerMatch)
    (rule : ContainerRule) : List ContainerMatch :=
  ((ms.filter (passesExcludeSelectors rule)).filter
    (passesExcludeIfContains rule)).filter (passesExcludeAncestors doc rule)

/-- `executeContainerRule`: resolve the scope, dispatch on the rule type,
then apply the rule's negative filters.  Any thrown selector error escapes
to the caller (where `findAdContainers` catches it per rule). -/
def executeContainerRule (doc : DomNode) (rule : ContainerRule) :
    Except Unit (List ContainerMatch) :=
  match labelScope doc rule with
  | .error e => .error e
  | .ok none => .ok []
  | .ok (some scope) =>
    match (match rule.rtype with
           | "css" => findContainersByCss rule scope
           | "label-led" => findContainersByLabelAdvanced doc rule
           | "attribute" => .ok (findContainersByAttribute rule scope)
           | _ => .ok []) with
    | .error e => .error e
    | .ok ms => .ok (applyNegativeFilters doc ms rule)

/-- One `Map.set` step of `deduplicateContainers`: a later candidate for an
already-seen node replaces the stored one (in place, keeping the key's
insertion position) only when its score is strictly greater. -/
def dedupInsert : List ContainerMatch → ContainerMatch → List ContainerMatch
  | [], c => [c]
  | x :: xs, c =>
    if x.container.nid == c.container.nid then
      (if x.score < c.score then c else x) :: xs
    else x :: dedupInsert xs c

/-- `deduplicateContainers`: deduplicate by node identity keeping the
highest score (first occurrence wins ties). -/
def deduplicateContainers (candidates : List ContainerMatch) : List ContainerMatch :=
  candidates.foldl dedupInsert []

/-- `calculateDynamicThreshold`: 80 percent of the best score, falling back
to `avg * 1.1` when the average is far below it, clamped to
`[minConfidence, 0.95]`; an empty match list yields the configured or
default threshold (a configured 0 is falsy in the source and also yields
0.6). -/
def calculateDynamicThreshold (ms : List ContainerMatch)
    (config : PlatformSelectorConfig) : ℚ :=
  match ms with
  | [] =>
    match config.containerScoreThreshold with
    | some t => if t == 0 then 0.6 else t
    | none => 0.6
  | m :: rest =>
    let scores := (m :: rest).map (fun x => x.score)
    let maxScore := (rest.map (fun x => x.score)).foldl max m.score
    let avgScore := scores.sum / (scores.length : ℚ)
    let threshold0 : ℚ := maxScore * 0.8
    let threshold1 :=
      if avgScore < threshold0 * 0.7 then max (avgScore * 1.1) config.minConfidence
      else threshold0
    min (max threshold1 config.minConfidence) 0.95

/-- Threshold selection inside `findAdContainers`: an explicitly configured
threshold wins, else the adaptive computation when enabled, else 0.6. -/
def selectThreshold (config : PlatformSelectorConfig)
    (uniqueMatches : List ContainerMatch) : ℚ :=
  match config.containerScoreThreshold with
  | some t => t
  | none =>
    if config.adaptiveThreshold then calculateDynamicThreshold uniqueMatches config
    else 0.6

/-- `findAdContainers`: run every container rule (a rule whose execution
throws is caught, logged and contributes zero matches), deduplicate by node
identity, then drop matches below the selected threshold. -/
def findAdContainers (config : PlatformSelectorConfig) (doc : DomNode) :
    List ContainerMatch :=
  let candidates := config.containerRules.flatMap (fun rule =>
    match executeContainerRule doc rule with
    | .ok ms => ms
    | .error _ => [])
  let uniqueMatches := deduplicateContainers candidates
  let threshold := selectThreshold config uniqueMatches
  uniqueMatches.filter (fun m => decide (threshold ≤ m.score))

/-! ## Field extraction (`detector.ts`, phase 2) -/

/-- `applyTransform`. -/
def applyTransform (env : JsEnv) (value : String) (transform : String) : String :=
  match transform with
  | "trim" => value.trim
  | "lowercase" => value.toLower
  | "url-clean" => env.urlClean value
  | _ => value

/-- `getElementPath`: the path from the document root down to the element. -/
def getElementPath (doc : DomNode) (e : DomNode) : List DomNode :=
  (pathTo doc e.nid).getD [e]

def commonPrefixLen : List Nat → List Nat → Nat
  | a :: xs, b :: ys => if a == b then 1 + commonPrefixLen xs ys else 0
  | _, _ => 0

/-- `getDOMDistance`: steps from each element up to the lowest common
ancestor, summed. -/
def getDOMDistance (doc : DomNode) (e1 e2 : DomNode) : Nat :=
  let p1 := (getElementPath doc e1).map DomNode.nid
  let p2 := (getElementPath doc e2).map DomNode.nid
  let c := commonPrefixLen p1 p2
  (p1.length - c) + (p2.length - c)

/-- The strict-minimum scan of `findNearestMatch` (first minimum wins). -/
def nearestFold (doc reference : DomNode) (cs : List DomNode) : Option DomNode :=
  (cs.foldl (fun acc c =>
    let d := getDOMDistance doc reference c
    match acc with
    | none => some (c, d)
    | some (b, bd) => if d < bd then some (c, d) else some (b, bd)) none).map
    (fun p => p.1)

/-- `findNearestMatch`: the selector match with minimum DOM distance to the
reference element. -/
def findNearestMatch (doc : DomNode) (reference : DomNode) (s : Selector)
    (container : DomNode) : Except Unit (Option DomNode) :=
  match querySelectorAllE container s with
  | .error e => .error e
  | .ok [] => .ok none
  | .ok [c] => .ok (some c)
  | .ok cs => .ok (nearestFold doc reference cs)

/-- `extractMediaUrls`. -/
def extractMediaUrls (container : DomNode) (s : Selector) (attr : String) :
    Except Unit (List String) :=
  match querySelectorAllE container s with
  | .error e => .error e
  | .ok els =>
    .ok (els.filterMap (fun e =>
      match e.getAttr attr with
      | some u => if u.trim == "" then none else some u.trim
      | none => none))

/-- The body of one rule attempt inside `extractField`'s loop, before the
per-rule catch: the optional context-aware element choice, the fallback
`querySelector`, then attribute / media / text extraction and the optional
transform.  Returns `none` where the loop would `continue`. -/
def attemptFieldRuleE (env : JsEnv) (doc : DomNode) (container : DomNode)
    (field : AdField) (ctx : Option DomNode) (rule : FieldRule) :
    Except Unit (Option FieldValue) :=
  match (match ctx with
         | some lbl =>
           if field == AdField.advertiser || field == AdField.advertiserHandle then
             findNearestMatch doc lbl rule.selector container
           else .ok none
         | none => .ok none) with
  | .error e => .error e
  | .ok ctxEl =>
  match ((match ctxEl with
          | some e => .ok (some e)
          | none => querySelectorE container rule.selector) : Except Unit (Option DomNode)) with
  | .error e => .error e
  | .ok none => .ok none
  | .ok (some e) =>
    match rule.attr with
    | some a =>
      match e.getAttr a with
      | none => .ok none
      | some av =>
        if av == "" then .ok none
        else
          let v := av.trim
          let v2 := match rule.transform with
                    | some t => applyTransform env v t
                    | none => v
          .ok (some (FieldValue.str v2))
    | none =>
      if field == AdField.image || field == AdField.video then
        match extractMediaUrls container rule.selector "src" with
        | .error er => .error er
        | .ok urls =>
          if urls.isEmpty then .ok none else .ok (some (FieldValue.strs urls))
      else
        let tv := e.textContent.trim
        if tv == "" then .ok none
        else
          let v2 := match rule.transform with
                    | some t => applyTransform env tv t
                    | none => tv
          .ok (some (FieldValue.str v2))

/-- One rule attempt with the per-rule catch applied: a thrown selector
error is logged and the loop continues with the next rule. -/
def attemptFieldRule (env : JsEnv) (doc : DomNode) (container : DomNode)
    (field : AdField) (ctx : Option DomNode) (rule : FieldRule) : Option FieldValue :=
  match attemptFieldRuleE env doc container field ctx rule with
  | .ok r => r
  | .error _ => none

def mkExtraction (field : AdField) (rule : FieldRule) (v : FieldValue) : FieldExtraction :=
  { field := field, value := v, ruleId := rule.id, score := rule.score }

/-- `extractField`: try the rules in the given order and return the first
attempt that produces a value. -/
def extractField (env : JsEnv) (doc : DomNode) (container : DomNode)
    (field : AdField) (ctx : Option DomNode) : List FieldRule → Option FieldExtraction
  | [] => none
  | rule :: rest =>
    match attemptFieldRule env doc container field ctx rule with
    | some v => some (mkExtraction field rule v)
    | none => extractField env doc container field ctx rest

/-- `setFieldValue`.  The source casts blindly between the string and
string-list shapes; the model wraps a string landed in a media field as a
singleton list and a list landed in a string field is ignored (neither shape
arises from the engine's own extraction). -/
def setFieldValue (fields : FieldData) (field : AdField) (value : FieldValue) : FieldData :=
  match field, value with
  | .label, .str s => { fields with label := some s }
  | .advertiser, .str s => { fields with advertiser := some s }
  | .advertiserHandle, .str s => { fields with advertiserHandle := some s }
  | .headline, .str s => { fields with headline := some s }
  | .body, .str s => { fields with body := some s }
  | .cta, .str s => { fields with cta := some s }
  | .destinationUrl, .str s => { fields with destinationUrl := some s }
  | .image, .strs l => { fields with images := l }
  | .video, .strs l => { fields with videos := l }
  | .image, .str s => { fields with images := [s] }
  | .video, .str s => { fields with videos := [s] }
  | _, _ => fields

/-- Grouping of field rules by target field (a JavaScript `Map` keyed by
field: first-seen field order, rule order preserved within a group). -/
def addToGroup (gs : List (AdField × List FieldRule)) (r : FieldRule) :
    List (AdField × List FieldRule) :=
  match gs with
  | [] => [(r.field, [r])]
  | (f, rs) :: rest =>
    if f == r.field then (f, rs ++ [r]) :: rest else (f, rs) :: addToGroup rest r

def groupFields (rules : List FieldRule) : List (AdField × List FieldRule) :=
  rules.foldl addToGroup []

/-- The stable descending-by-score sort applied to each field's rule group
(`fieldRules.sort((a, b) => b.score - a.score)`). -/
def insertByScore (r : FieldRule) : List FieldRule → List FieldRule
  | [] => [r]
  | x :: xs => if x.score ≤ r.score then r :: x :: xs else x :: insertByScore r xs

def sortByScoreDesc (rules : List FieldRule) : List FieldRule :=
  rules.foldr insertByScore []

/-- `extractFields`: group rules by field, sort each group by score
descending, and extract each field with its fallback chain, recording one
`FieldExtraction` per field that produced a value. -/
def extractFields (env : JsEnv) (doc : DomNode) (container : DomNode)
    (rules : List FieldRule) (ctx : Option DomNode) : FieldData × List FieldExtraction :=
  let groups := (groupFields rules).map (fun g => (g.1, sortByScoreDesc g.2))
  groups.foldl (fun acc g =>
    match extractField env doc container g.1 ctx g.2 with
    | some ex => (setFieldValue acc.1 g.1 ex.value, acc.2 ++ [ex])
    | none => acc) ({}, [])

/-! ## Detection pipeline (`detector.ts`, phase 3) -/

/-- `createDefaultValidation`: the completeness heuristic used when no
validators are configured. -/
def createDefaultValidation (fields : FieldData) (minConfidence : ℚ) : ValidationResult :=
  let confidence := computeConfidence fields
  { valid := minConfidence ≤ confidence,
    confidence := confidence,
    reasons :=
      (if !truthyStr fields.advertiser then ["Missing advertiser"] else [])
      ++ (if !truthyStr fields.destinationUrl then ["Missing destination URL"] else [])
      ++ (if !truthyStr fields.label then ["Missing ad label"] else []),
    fieldScores := [] }

/-- Phase 2 and 3 for one container match: extraction (with the label
context when present) followed by validation. -/
def candidateValidation (env : JsEnv) (config : PlatformSelectorConfig)
    (doc : DomNode) (m : ContainerMatch) : FieldData × List FieldExtraction × ValidationResult :=
  let ext := extractFields env doc m.container config.fieldRules m.labelElement
  let validation :=
    match config.validators with
    | some vs =>
      if 0 < vs.length then validateAdCandidate env ext.1 vs config.minConfidence
      else createDefaultValidation ext.1 config.minConfidence
    | none => createDefaultValidation ext.1 config.minConfidence
  (ext.1, ext.2, validation)

/-- The per-container loop of `detectAds`: skip already-seen containers,
mark each processed container as seen, keep only valid candidates. -/
def detectLoop (env : JsEnv) (config : PlatformSelectorConfig) (doc : DomNode)
    (seen : List Nat) : List ContainerMatch → List AdCandidate
  | [] => []
  | m :: rest =>
    if seen.contains m.container.nid then detectLoop env config doc seen rest
    else
      let seen2 := m.container.nid :: seen
      let r := candidateValidation env config doc m
      if r.2.2.valid then
        { container := m.container, containerMatch := m, fields := r.1,
          fieldExtractions := r.2.1, validation := r.2.2,
          platform := config.platform } :: detectLoop env config doc seen2 rest
      else detectLoop env config doc seen2 rest

/-- `detectAds`: the complete pipeline over one document, with the host's
seen-set of already-processed container identities. -/
def detectAds (env : JsEnv) (config : PlatformSelectorConfig) (seen : List Nat)
    (doc : DomNode) : List AdCandidate :=
  detectLoop env config doc seen (findAdContainers config doc)

/-! ## Config validation (`configValidator.ts`) -/

inductive VKind : Type where
  | error | warning
deriving DecidableEq, BEq

/-- One finding of the config validator (`ValidationError`). -/
structure ValidationError where
  vkind : VKind
  message : String
  location : Option String := none
  ruleId : Option String := none
deriving DecidableEq

structure ConfigValidationResult where
  valid : Bool
  errors : List ValidationError
  warnings : List ValidationError
deriving DecidableEq

/-- `validateCssSelector`: error message for a selector that does not parse
(the source's separate empty-string message is collapsed into invalidity),
`none` for a valid one. -/
def validateCssSelector (s : Selector) : Option String :=
  match s with
  | .invalid => some "Invalid selector"
  | .valid _ => none

def isErrKind (e : ValidationError) : Bool := e.vkind == VKind.error
def isWarnKind (e : ValidationError) : Bool := e.vkind == VKind.warning

/-- `validateContainerRule`: all findings (errors and warnings) for one
container rule, in push order.  The missing-score branch is unrepresentable
(scores are required numbers in the model); numeric renderings inside
messages are elided. -/
def validateContainerRule (rule : ContainerRule) : List ValidationError :=
  (if rule.id == "" then
    [{ vkind := .error, message := "Container rule missing id", ruleId := some "unknown" }]
   else [])
  ++ (if rule.rtype == "" then
    [{ vkind := .error, message := "Container rule missing type", ruleId := some rule.id }]
   else [])
  ++ (match rule.rtype with
    | "css" =>
      match rule.selector with
      | none => [{ vkind := .error, message := "CSS rule missing selector", ruleId := some rule.id }]
      | some s =>
        match validateCssSelector s with
        | some msg => [{ vkind := .error, message := "Invalid CSS selector: " ++ msg,
                         ruleId := some rule.id, location := some "selector" }]
        | none => []
    | "label-led" =>
      (match rule.labelTexts with
       | none => [{ vkind := .error, message := "Label-led rule missing labelTexts",
                    ruleId := some rule.id }]
       | some lts =>
         if lts.isEmpty then
           [{ vkind := .error, message := "Label-led rule missing labelTexts",
              ruleId := some rule.id }]
         else [])
      ++ (match rule.containerSelector with
        | some s =>
          match validateCssSelector s with
          | some msg => [{ vkind := .error, message := "Invalid container selector: " ++ msg,
                           ruleId := some rule.id, location := some "containerSelector" }]
          | none => []
        | none => [])
    | "attribute" =>
      if (rule.attributeKey.getD "") == "" then
        [{ vkind := .error, message := "Attribute rule missing attributeKey",
           ruleId := some rule.id }]
      else []
    | _ => [])
  ++ (if rule.score < 0 || 1 < rule.score then
    [{ vkind := .warning, message := "Score outside typical range", ruleId := some rule.id }]
   else [])
  ++ ((rule.excludeSelectors.getD []).flatMap (fun s =>
    match validateCssSelector s with
    | some msg => [{ vkind := .error, message := "Invalid exclude selector: " ++ msg,
                     ruleId := some rule.id, location := some "excludeSelectors" }]
    | none => []))
  ++ ((rule.excludeAncestors.getD []).flatMap (fun s =>
    match validateCssSelector s with
    | some msg => [{ vkind := .error, message := "Invalid ancestor selector: " ++ msg,
                     ruleId := some rule.id, location := some "excludeAncestors" }]
    | none => []))

/-- `validateFieldRule`: all findings for one field rule, in push order.
The missing-field and missing-score branches are unrepresentable (both are
required in the model); the field rule's selector is a required string whose
emptiness is part of selector invalidity. -/
def validateFieldRule (rule : FieldRule) : List ValidationError :=
  (if rule.id == "" then
    [{ vkind := .error, message := "Field rule missing id", ruleId := some "unknown" }]
   else [])
  ++ (match validateCssSelector rule.selector with
    | some msg => [{ vkind := .error, message := "Invalid CSS selector: " ++ msg,
                     ruleId := some rule.id, location := some "selector" }]
    | none => [])
  ++ (if rule.score < 0 || 1 < rule.score then
    [{ vkind := .warning, message := "Score outside typical range", ruleId := some rule.id }]
   else [])
  ++ (match rule.transform with
    | some t =>
      if ["trim", "lowercase", "url-clean"].contains t then []
      else [{ vkind := .warning, message := "Unknown transform: " ++ t,
              ruleId := some rule.id, location := some "transform" }]
    | none => [])

/-- The error array `validateConfig` accumulates, in push order.  (The
source interleaves error and warning pushes into two arrays; each array's
content and order are preserved here.)  The missing-`minConfidence` branch
is unrepresentable. -/
def configErrors (config : PlatformSelectorConfig) : List ValidationError :=
  (if config.platform == "" then
    [{ vkind := .error, message := "Missing required field: platform" }]
   else [])
  ++ (if config.containerRules.isEmpty then
    [{ vkind := .error, message := "No container rules defined" }]
   else [])
  ++ (if config.fieldRules.isEmpty then
    [{ vkind := .error, message := "No field rules defined" }]
   else [])
  ++ config.containerRules.flatMap (fun r => (validateContainerRule r).filter isErrKind)
  ++ config.fieldRules.flatMap (fun r => (validateFieldRule r).filter isErrKind)
  ++ (match config.validators with
    | some vs =>
      if (vs.map (fun v => v.weight)).sum == 0 then
        [{ vkind := .error, message := "Validator weights sum to 0", location := some "validators" }]
      else []
    | none => [])
  ++ (if config.minConfidence < 0 || 1 < config.minConfidence then
    [{ vkind := .error, message := "minConfidence outside valid range",
       location := some "minConfidence" }]
   else [])
  ++ (match config.containerScoreThreshold with
    | some t =>
      if t < 0 || 1 < t then
        [{ vkind := .error, message := "containerScoreThreshold outside valid range",
           location := some "containerScoreThreshold" }]
      else []
    | none => [])

def criticalFieldWarning (f : String) : ValidationError :=
  { vkind := .warning, message := "No extractor for critical field: " ++ f,
    location := some "fieldRules" }

/-- The warning array `validateConfig` accumulates, in push order; the
critical-field coverage check only ever lands here. -/
def configWarnings (config : PlatformSelectorConfig) : List ValidationError :=
  (if (config.version.getD "") == "" then
    [{ vkind := .warning, message := "Missing version field" }]
   else [])
  ++ config.containerRules.flatMap (fun r => (validateContainerRule r).filter isWarnKind)
  ++ config.fieldRules.flatMap (fun r => (validateFieldRule r).filter isWarnKind)
  ++ (match config.validators with
    | some vs =>
      if (0.15 : ℚ) < |(vs.map (fun v => v.weight)).sum - 1| then
        [{ vkind := .warning, message := "Validator weights not summing to 1",
           location := some "validators" }]
      else []
    | none => [])
  ++ (let extractedFields := config.fieldRules.map (fun r => r.field)
      (if extractedFields.contains AdField.advertiser then []
       else [criticalFieldWarning "advertiser"])
      ++ (if extractedFields.contains AdField.destinationUrl then []
          else [criticalFieldWarning "destinationUrl"]))

/-- `validateConfig`: valid iff no errors were produced. -/
def validateConfig (config : PlatformSelectorConfig) : ConfigValidationResult :=
  { valid := (configErrors config).isEmpty,
    errors := configErrors config,
    warnings := configWarnings config }

/-! ## Specification-side definitions

These restate the claims' wording; the theorems below relate them to the
source-translated functions above. -/

/-- Score a single validator awards per the specification: its full weight
when it passes and zero otherwise, except that a min-text-length validator
under its threshold awards `weight * (actualLength / minLength)`; a skipped
(malformed or unknown) validator awards nothing. -/
def specAwarded (env : JsEnv) (fields : FieldData) (v : ValidationRule) : ℚ :=
  match v.vtype with
  | "required-field" =>
    match v.field with
    | none => 0
    | some f => if (validateRequiredField f fields v.weight).passed then v.weight else 0
  | "label-pattern" =>
    match v.pattern with
    | none => 0
    | some p => if (validateLabelPattern env p fields v.weight).passed then v.weight else 0
  | "url-valid" => if (validateUrl env fields.destinationUrl v.weight).passed then v.weight else 0
  | "min-text-length" =>
    match v.field, v.minLength with
    | some f, some m =>
      if (validateMinTextLength f fields m v.weight).passed then v.weight
      else v.weight * (((textFieldOf f fields).length : ℚ) / (m : ℚ))
    | _, _ => 0
  | _ => 0

/-- The specification's confidence formula: awarded scores summed over the
validators, divided by the sum of all configured validator weights. -/
def specConfidenceFormula (env : JsEnv) (fields : FieldData)
    (validators : List ValidationRule) : ℚ :=
  (validators.map (specAwarded env fields)).sum / (validators.map (fun v => v.weight)).sum

/-- A validator `validateAdCandidate` skips with a console warning: a
required-field validator without a field, a label-pattern validator without
a pattern, a min-text-length validator without a field or a minimum length,
or an unknown validator type. -/
def isSkippedValidator (v : ValidationRule) : Bool :=
  match v.vtype with
  | "required-field" => v.field.isNone
  | "label-pattern" => v.pattern.isNone
  | "url-valid" => false
  | "min-text-length" => v.field.isNone || v.minLength.isNone
  | _ => true

def specClamp (x lo hi : ℚ) : ℚ := min (max x lo) hi

def specMaxScore (ms : List ContainerMatch) : ℚ :=
  match ms with
  | [] => 0
  | m :: rest => (rest.map (fun x => x.score)).foldl max m.score

def specAvgScore (ms : List ContainerMatch) : ℚ :=
  ((ms.map (fun x => x.score)).sum) / (ms.length : ℚ)

/-- The adaptive threshold per the specification:
`clamp(max(maxScore*0.8, minConfidence), minConfidence, 0.95)`, except that
when `avgScore < 0.7 * (maxScore*0.8)` the clamped value is
`max(avgScore*1.1, minConfidence)` instead. -/
def specAdaptiveThreshold (minConfidence : ℚ) (ms : List ContainerMatch) : ℚ :=
  let mx := specMaxScore ms
  let av := specAvgScore ms
  if av < 0.7 * (mx * 0.8) then specClamp (max (av * 1.1) minConfidence) minConfidence 0.95
  else specClamp (max (mx * 0.8) minConfidence) minConfidence 0.95

/-- A node violates a rule's negative filters per the specification: the
node or a descendant matches an `excludeSelectors` entry, or its text
contains an `excludeIfContains` substring, or a (proper) ancestor matches an
`excludeAncestors` entry. -/
def violatesNegativeFilters (doc : DomNode) (rule : ContainerRule) (n : DomNode) : Bool :=
  (rule.excludeSelectors.getD []).any (fun s =>
    selMatches s n || n.descendants.any (selMatches s))
  || (rule.excludeIfContains.getD []).any (fun phrase => strContains n.textContent phrase)
  || (rule.excludeAncestors.getD []).any (fun s =>
    ((selfAndAncestors doc n).drop 1).any (selMatches s))

def isEmptyValue : FieldValue → Bool
  | .str s => s == ""
  | .strs l => l.isEmpty

/-- The extraction the claim predicts for one field: the first rule, in
descending score order, whose attempt resolves to a non-empty value. -/
def specFirstNonEmpty (env : JsEnv) (doc : DomNode) (container : DomNode)
    (field : AdField) (ctx : Option DomNode) (rules : List FieldRule) :
    Option FieldExtraction :=
  (sortByScoreDesc rules).findSome? (fun r =>
    match attemptFieldRule env doc container field ctx r with
    | some v => if isEmptyValue v then none else some (mkExtraction field r v)
    | none => none)

/-- Label confidence per the specification: 1.0 for a direct (whole-word)
hit, else 0.9 at nesting depth at most 2, 0.8 at depth at most 4, 0.7
deeper (or when no single element holds the substring). -/
def specLabelConfidence (labelText : String) (e : DomNode) : ℚ :=
  if wordPatternTest labelText (getDirectText e) then 1
  else
    match getTextDepth labelText e 0 with
    | some d => if d ≤ 2 then 0.9 else if d ≤ 4 then 0.8 else 0.7
    | none => 0.7

/-- A malformed CSS selector in any selector-bearing position the claim
lists: a css rule's selector, a label-led rule's container selector, an
exclude or exclude-ancestor entry, or a field rule's selector. -/
def hasMalformedSelector (config : PlatformSelectorConfig) : Bool :=
  config.containerRules.any (fun r =>
    (r.rtype == "css" && (match r.selector with
      | some s => !s.isValid
      | none => false))
    || (r.rtype == "label-led" && (match r.containerSelector with
      | some s => !s.isValid
      | none => false))
    || (r.excludeSelectors.getD []).any (fun s => !s.isValid)
    || (r.excludeAncestors.getD []).any (fun s => !s.isValid))
  || config.fieldRules.any (fun fr => !fr.selector.isValid)

/-- A well-formed destinationUrl extractor, used to show that adding the
missing critical extractor does not change validity. -/
def addedRuleC9 : FieldRule :=
  { id := "added-destination-url", field := AdField.destinationUrl,
    selector := Selector.valid (fun _ => false), score := 1 }

def addDestinationUrlRule (config : PlatformSelectorConfig) : PlatformSelectorConfig :=
  { config with fieldRules := config.fieldRules ++ [addedRuleC9] }


/-! ## Lemmas about the validator aggregation -/

theorem validateRequiredField_score (field : AdField) (fields : FieldData) (w : ℚ) :
    (validateRequiredField field fields w).score =
      if (validateRequiredField field fields w).passed then w else 0 := rfl

theorem validateLabelPattern_score (env : JsEnv) (p : String) (fields : FieldData) (w : ℚ) :
    (validateLabelPattern env p fields w).score =
      if (validateLabelPattern env p fields w).passed then w else 0 := rfl

theorem validateUrl_score (env : JsEnv) (url : Option String) (w : ℚ) :
    (validateUrl env url w).score = if (validateUrl env url w).passed then w else 0 := by
  unfold validateUrl
  cases url with
  | none => rfl
  | some u =>
    dsimp only
    split
    · rfl
    · cases env.parseUrl u with
      | none => rfl
      | some parts => rfl

theorem validateMinTextLength_score (field : AdField) (fields : FieldData) (m : Nat) (w : ℚ) :
    (validateMinTextLength field fields m w).score =
      if (validateMinTextLength field fields m w).passed then w
      else w * (((textFieldOf field fields).length : ℚ) / (m : ℚ)) := rfl

theorem specAwarded_eq_score (env : JsEnv) (fields : FieldData) (v : ValidationRule)
    (r : VCheck) (b : AdField) (h : runValidator env fields v = some (r, b)) :
    specAwarded env fields v = r.score := by
  unfold specAwarded
  unfold runValidator at h
  split at h
  next =>
    cases hf : v.field with
    | none => rw [hf] at h; cases h
    | some f =>
      rw [hf] at h
      simp only [Option.some.injEq, Prod.mk.injEq] at h
      rw [← h.1, validateRequiredField_score]
  next =>
    cases hp : v.pattern with
    | none => rw [hp] at h; cases h
    | some p =>
      rw [hp] at h
      simp only [Option.some.injEq, Prod.mk.injEq] at h
      rw [← h.1, validateLabelPattern_score]
  next =>
    simp only [Option.some.injEq, Prod.mk.injEq] at h
    rw [← h.1, validateUrl_score]
  next =>
    cases hf : v.field with
    | none => rw [hf] at h; cases h
    | some f =>
      cases hm : v.minLength with
      | none => rw [hf, hm] at h; cases h
      | some m =>
        rw [hf, hm] at h
        simp only [Option.some.injEq, Prod.mk.injEq] at h
        rw [← h.1, validateMinTextLength_score]
  next => cases h

theorem specAwarded_of_none (env : JsEnv) (fields : FieldData) (v : ValidationRule)
    (h : runValidator env fields v = none) : specAwarded env fields v = 0 := by
  unfold specAwarded
  unfold runValidator at h
  split at h
  next =>
    cases hf : v.field with
    | none => rfl
    | some f => rw [hf] at h; cases h
  next =>
    cases hp : v.pattern with
    | none => rfl
    | some p => rw [hp] at h; cases h
  next => cases h
  next =>
    cases hf : v.field with
    | none => rfl
    | some f =>
      cases hm : v.minLength with
      | none => rfl
      | some m => rw [hf, hm] at h; cases h
  next => rfl

theorem validatorStep_total (env : JsEnv) (fields : FieldData) (acc : VAcc) (v : ValidationRule) :
    (validatorStep env fields acc v).totalScore = acc.totalScore + specAwarded env fields v := by
  unfold validatorStep
  cases h : runValidator env fields v with
  | none => simp [specAwarded_of_none env fields v h]
  | some rb =>
    rw [specAwarded_eq_score env fields v rb.1 rb.2 h]

theorem validatorStep_max (env : JsEnv) (fields : FieldData) (acc : VAcc) (v : ValidationRule) :
    (validatorStep env fields acc v).maxPossibleScore = acc.maxPossibleScore + v.weight := by
  unfold validatorStep
  cases h : runValidator env fields v <;> simp

theorem validatorStep_reasons (env : JsEnv) (fields : FieldData) (acc : VAcc) (v : ValidationRule) :
    (validatorStep env fields acc v).reasons =
      acc.reasons ++ (match runValidator env fields v with
        | none => []
        | some rb => [rb.1.message]) := by
  unfold validatorStep
  cases h : runValidator env fields v <;> simp

/-- The loop of `validateAdCandidate`, characterised: the numerator is the
sum of awarded scores, the denominator is the sum of all configured
weights, and the reason list holds one message per executed validator. -/
theorem runValidators_fold (env : JsEnv) (fields : FieldData) :
    ∀ (vs : List ValidationRule) (acc : VAcc),
      (vs.foldl (validatorStep env fields) acc).totalScore
          = acc.totalScore + (vs.map (specAwarded env fields)).sum
      ∧ (vs.foldl (validatorStep env fields) acc).maxPossibleScore
          = acc.maxPossibleScore + (vs.map (fun v => v.weight)).sum
      ∧ (vs.foldl (validatorStep env fields) acc).reasons
          = acc.reasons ++ vs.flatMap (fun v =>
              match runValidator env fields v with
              | none => []
              | some rb => [rb.1.message])
  | [], acc => by simp
  | v :: vs, acc => by
    obtain ⟨ih1, ih2, ih3⟩ := runValidators_fold env fields vs (validatorStep env fields acc v)
    refine ⟨?_, ?_, ?_⟩
    · simp only [List.foldl_cons, List.map_cons, List.sum_cons]
      rw [ih1, validatorStep_total]
      ring
    · simp only [List.foldl_cons, List.map_cons, List.sum_cons]
      rw [ih2, validatorStep_max]
      ring
    · simp only [List.foldl_cons, List.flatMap_cons]
      rw [ih3, validatorStep_reasons]
      simp

/-! ## Shared concrete fixtures for witnesses and counterexamples -/

def testEnv : JsEnv :=
  { regexTest := fun p s => strContainsCI p s,
    parseUrl := fun s =>
      if s == "https://x.example/a" then some { protocol := "https:", hostname := "x.example" }
      else none,
    urlClean := fun s => s }

def fieldsAcme : FieldData := { advertiser := some "Acme" }

def reqAdvertiser : ValidationRule :=
  { vtype := "required-field", weight := 1, field := some .advertiser }

def reqHeadlineNeg : ValidationRule :=
  { vtype := "required-field", weight := -3, field := some .headline }

def skipNeg : ValidationRule := { vtype := "required-field", weight := -(1/2) }

def skipPos : ValidationRule := { vtype := "mystery", weight := 1/4 }

/-! ## Claim C1 -/

/-- Claim C1, counterexample: with validators `required-field advertiser`
(weight 1, passing) and `required-field headline` (weight -3, failing) the
weight sum is -2, so the claimed quotient is -1/2 while the code returns 0:
the non-positive-denominator guard makes the claim false as stated. -/
theorem validateAdCandidate_formula_counterexample :
    (validateAdCandidate testEnv fieldsAcme [reqAdvertiser, reqHeadlineNeg] 0.5).confidence
      ≠ specConfidenceFormula testEnv fieldsAcme [reqAdvertiser, reqHeadlineNeg] := by
  with_unfolding_all decide

/-- Claim C1 (amended): for every `FieldData` and non-empty validator list,
`validateAdCandidate` returns confidence equal to the sum of awarded scores
divided by the sum of all configured validator weights whenever that weight
sum is positive, and confidence 0 otherwise; each validator awards its full
weight when it passes and zero otherwise, except that a min-text-length
validator under its threshold awards `weight * (actualLength / minLength)`
(this is `specAwarded`); the `valid` flag is true iff
`confidence >= minConfidence`. -/
theorem validateAdCandidate_confidence_formula (env : JsEnv) (fields : FieldData)
    (validators : List ValidationRule) (minConfidence : ℚ) (_hne : validators ≠ []) :
    (validateAdCandidate env fields validators minConfidence).confidence =
      (if 0 < (validators.map (fun v => v.weight)).sum
       then (validators.map (specAwarded env fields)).sum
              / (validators.map (fun v => v.weight)).sum
       else 0)
    ∧ ((validateAdCandidate env fields validators minConfidence).valid = true ↔
        minConfidence ≤ (validateAdCandidate env fields validators minConfidence).confidence) := by
  obtain ⟨h1, h2, -⟩ := runValidators_fold env fields validators {}
  constructor
  · show (if 0 < (runValidatorsAcc env fields validators).maxPossibleScore
          then (runValidatorsAcc env fields validators).totalScore
                 / (runValidatorsAcc env fields validators).maxPossibleScore
          else 0) = _
    unfold runValidatorsAcc
    rw [h1, h2]
    norm_num
  · exact decide_eq_true_iff

/-- Claim C1, witness. -/
theorem validateAdCandidate_confidence_formula_witness :
    ([reqAdvertiser] : List ValidationRule) ≠ [] ∧
    (validateAdCandidate testEnv fieldsAcme [reqAdvertiser] 0.5).confidence =
      (if 0 < (([reqAdvertiser] : List ValidationRule).map (fun v => v.weight)).sum
       then (([reqAdvertiser] : List ValidationRule).map (specAwarded testEnv fieldsAcme)).sum
              / (([reqAdvertiser] : List ValidationRule).map (fun v => v.weight)).sum
       else 0) :=
  ⟨by simp,
   (validateAdCandidate_confidence_formula testEnv fieldsAcme [reqAdvertiser] 0.5 (by simp)).1⟩

/-! ## Claim C10 -/

theorem runValidator_of_skipped (env : JsEnv) (fields : FieldData) (v : ValidationRule)
    (h : isSkippedValidator v = true) : runValidator env fields v = none := by
  unfold isSkippedValidator at h
  unfold runValidator
  split at h
  next =>
    cases hf : v.field with
    | none => rfl
    | some f => rw [hf] at h; cases h
  next =>
    cases hp : v.pattern with
    | none => rfl
    | some p => rw [hp] at h; cases h
  next => cases h
  next =>
    cases hf : v.field with
    | none => rfl
    | some f =>
      cases hm : v.minLength with
      | none => rfl
      | some m => rw [hf, hm] at h; simp at h
  next => rfl

theorem validateMinTextLength_passed (field : AdField) (fields : FieldData) (m : Nat) (w : ℚ) :
    (validateMinTextLength field fields m w).passed =
      decide (m ≤ (textFieldOf field fields).length) := rfl

theorem specAwarded_nonneg (env : JsEnv) (fields : FieldData) (v : ValidationRule)
    (hw : 0 ≤ v.weight) : 0 ≤ specAwarded env fields v := by
  unfold specAwarded
  split
  · split
    · exact le_refl 0
    · split <;> simp [hw]
  · split
    · exact le_refl 0
    · split <;> simp [hw]
  · split <;> simp [hw]
  · split
    · split
      · exact hw
      · positivity
    · exact le_refl 0
  · exact le_refl 0

theorem specAwarded_le_weight (env : JsEnv) (fields : FieldData) (v : ValidationRule)
    (hw : 0 ≤ v.weight) : specAwarded env fields v ≤ v.weight := by
  unfold specAwarded
  split
  · split
    · exact hw
    · split
      · exact le_refl _
      · exact hw
  · split
    · exact hw
    · split
      · exact le_refl _
      · exact hw
  · split
    · exact le_refl _
    · exact hw
  · cases hf : v.field with
    | none => exact hw
    | some f =>
      cases hm : v.minLength with
      | none => exact hw
      | some m =>
        show (if (validateMinTextLength f fields m v.weight).passed then v.weight
              else v.weight * (((textFieldOf f fields).length : ℚ) / (m : ℚ))) ≤ v.weight
        split
        · exact le_refl _
        next hnp =>
          rw [validateMinTextLength_passed] at hnp
          simp only [decide_eq_true_eq] at hnp
          have hlt : (textFieldOf f fields).length < m := Nat.lt_of_not_le hnp
          have hmpos : 0 < m := Nat.lt_of_le_of_lt (Nat.zero_le _) hlt
          have hm0 : (0 : ℚ) < (m : ℚ) := by exact_mod_cast hmpos
          have hratio : ((textFieldOf f fields).length : ℚ) / (m : ℚ) ≤ 1 := by
            rw [div_le_one hm0]
            exact_mod_cast le_of_lt hlt
          calc v.weight * (((textFieldOf f fields).length : ℚ) / (m : ℚ))
              ≤ v.weight * 1 := mul_le_mul_of_nonneg_left hratio hw
            _ = v.weight := mul_one _
  · exact hw

/-- Claim C10, counterexample: a skipped validator with negative weight
(`required-field` without a field, weight -1/2) strictly increases the
confidence (from 1 to 2), refuting the claimed "never increases". -/
theorem skippedValidator_counterexample :
    (validateAdCandidate testEnv fieldsAcme [reqAdvertiser] 0.5).confidence <
      (validateAdCandidate testEnv fieldsAcme ([reqAdvertiser] ++ [skipNeg]) 0.5).confidence := by
  with_unfolding_all decide

/-- Claim C10 (amended): a skipped validator still adds its weight to the
confidence denominator while contributing no score and no reason message;
consequently, when every configured weight is nonnegative, appending such a
validator never increases the confidence, and strictly decreases it when the
skipped weight is positive and the confidence was positive. -/
theorem skippedValidator_dilutes (env : JsEnv) (fields : FieldData)
    (vs : List ValidationRule) (minConfidence : ℚ) (v : ValidationRule)
    (hskip : isSkippedValidator v = true)
    (hnn : ∀ u ∈ vs, 0 ≤ u.weight) (hw : 0 ≤ v.weight) :
    (runValidatorsAcc env fields (vs ++ [v])).maxPossibleScore
        = (runValidatorsAcc env fields vs).maxPossibleScore + v.weight
    ∧ (runValidatorsAcc env fields (vs ++ [v])).totalScore
        = (runValidatorsAcc env fields vs).totalScore
    ∧ (runValidatorsAcc env fields (vs ++ [v])).reasons
        = (runValidatorsAcc env fields vs).reasons
    ∧ (validateAdCandidate env fields (vs ++ [v]) minConfidence).confidence
        ≤ (validateAdCandidate env fields vs minConfidence).confidence
    ∧ (0 < v.weight →
        0 < (validateAdCandidate env fields vs minConfidence).confidence →
        (validateAdCandidate env fields (vs ++ [v]) minConfidence).confidence
          < (validateAdCandidate env fields vs minConfidence).confidence) := by
  have hnone := runValidator_of_skipped env fields v hskip
  have happ : runValidatorsAcc env fields (vs ++ [v])
      = validatorStep env fields (runValidatorsAcc env fields vs) v := by
    unfold runValidatorsAcc
    rw [List.foldl_append, List.foldl_cons, List.foldl_nil]
  have hmax : (runValidatorsAcc env fields (vs ++ [v])).maxPossibleScore
      = (runValidatorsAcc env fields vs).maxPossibleScore + v.weight := by
    rw [happ, validatorStep_max]
  have htot : (runValidatorsAcc env fields (vs ++ [v])).totalScore
      = (runValidatorsAcc env fields vs).totalScore := by
    rw [happ, validatorStep_total, specAwarded_of_none env fields v hnone, add_zero]
  have hrsn : (runValidatorsAcc env fields (vs ++ [v])).reasons
      = (runValidatorsAcc env fields vs).reasons := by
    rw [happ, validatorStep_reasons, hnone]
    simp
  obtain ⟨hT, hM, -⟩ := runValidators_fold env fields vs {}
  set T := (runValidatorsAcc env fields vs).totalScore with hTdef
  set M := (runValidatorsAcc env fields vs).maxPossibleScore with hMdef
  have hT0 : 0 ≤ T := by
    rw [hTdef]
    show 0 ≤ (runValidatorsAcc env fields vs).totalScore
    unfold runValidatorsAcc
    rw [hT]
    simp only [VAcc.totalScore, zero_add]
    exact List.sum_nonneg (by
      intro x hx
      obtain ⟨u, hu, rfl⟩ := List.mem_map.mp hx
      exact specAwarded_nonneg env fields u (hnn u hu))
  have hTM : T ≤ M := by
    rw [hTdef, hMdef]
    show (runValidatorsAcc env fields vs).totalScore ≤ (runValidatorsAcc env fields vs).maxPossibleScore
    unfold runValidatorsAcc
    rw [hT, hM]
    simp only [VAcc.totalScore, VAcc.maxPossibleScore, zero_add]
    exact List.sum_le_sum (fun u hu => specAwarded_le_weight env fields u (hnn u hu))
  have hconf1 : (validateAdCandidate env fields vs minConfidence).confidence
      = if 0 < M then T / M else 0 := rfl
  have hconf2 : (validateAdCandidate env fields (vs ++ [v]) minConfidence).confidence
      = if 0 < M + v.weight then T / (M + v.weight) else 0 := by
    show (if 0 < (runValidatorsAcc env fields (vs ++ [v])).maxPossibleScore
          then (runValidatorsAcc env fields (vs ++ [v])).totalScore
                 / (runValidatorsAcc env fields (vs ++ [v])).maxPossibleScore
          else 0) = _
    rw [hmax, htot]
  refine ⟨hmax, htot, hrsn, ?_, ?_⟩
  · rw [hconf1, hconf2]
    by_cases hMpos : 0 < M
    · have hM2 : 0 < M + v.weight := by linarith
      rw [if_pos hMpos, if_pos hM2]
      gcongr
      linarith
    · have hT0eq : T = 0 := le_antisymm (by
        calc T ≤ M := hTM
          _ ≤ 0 := le_of_not_lt hMpos) hT0
      rw [if_neg hMpos, hT0eq]
      split
      · simp
      · exact le_refl 0
  · intro hwpos hcpos
    rw [hconf1] at hcpos
    have hMpos : 0 < M := by
      by_contra hc
      rw [if_neg hc] at hcpos
      exact lt_irrefl 0 hcpos
    rw [if_pos hMpos] at hcpos
    have hTpos : 0 < T := by
      by_contra hc
      have : T = 0 := le_antisymm (le_of_not_lt (fun hlt => hc hlt)) hT0
      rw [this, zero_div] at hcpos
      exact lt_irrefl 0 hcpos
    rw [hconf1, hconf2, if_pos hMpos, if_pos (by linarith : (0 : ℚ) < M + v.weight)]
    exact div_lt_div_of_pos_left hTpos hMpos (by linarith)

/-- Claim C10, witness: appending a skipped unknown-type validator of
positive weight strictly decreases the confidence. -/
theorem skippedValidator_dilutes_witness :
    isSkippedValidator skipPos = true ∧
    (validateAdCandidate testEnv fieldsAcme ([reqAdvertiser] ++ [skipPos]) 0.5).confidence <
      (validateAdCandidate testEnv fieldsAcme [reqAdvertiser] 0.5).confidence :=
  ⟨by decide,
   (skippedValidator_dilutes testEnv fieldsAcme [reqAdvertiser] 0.5 skipPos
      (by decide)
      (by intro u hu; fin_cases hu; with_unfolding_all decide)
      (by with_unfolding_all decide)).2.2.2.2
      (by with_unfolding_all decide) (by with_unfolding_all decide)⟩

/-! ## Claim C2 -/

/-- Claim C2: with `adaptiveThreshold` set and `containerScoreThreshold`
unset, the acceptance threshold `findAdContainers` applies to a non-empty
deduplicated match list is
`clamp(max(maxScore*0.8, minConfidence), minConfidence, 0.95)`, except that
when `avgScore < 0.7 * (maxScore*0.8)` the clamped value is
`max(avgScore*1.1, minConfidence)`; for an empty match list it is 0.6. -/
theorem selectThreshold_adaptive (config : PlatformSelectorConfig)
    (ms : List ContainerMatch)
    (hset : config.adaptiveThreshold = true)
    (hunset : config.containerScoreThreshold = none) :
    (ms ≠ [] → selectThreshold config ms = specAdaptiveThreshold config.minConfidence ms)
    ∧ selectThreshold config [] = 0.6 := by
  constructor
  · intro hne2
    obtain ⟨m, rest, rfl⟩ : ∃ m rest, ms = m :: rest := by
      cases ms with
      | nil => exact absurd rfl hne2
      | cons a b => exact ⟨a, b, rfl⟩
    unfold selectThreshold
    simp only [hunset, hset, if_true]
    unfold calculateDynamicThreshold specAdaptiveThreshold specClamp specMaxScore specAvgScore
    dsimp only
    have hcomm : (rest.map (fun x => x.score)).foldl max m.score * 0.8 * 0.7
        = 0.7 * ((rest.map (fun x => x.score)).foldl max m.score * 0.8) := by ring
    rw [hcomm, List.length_map]
    split
    next => rfl
    next => rw [max_assoc, max_self]
  · unfold selectThreshold
    simp only [hunset, hset, if_true]
    unfold calculateDynamicThreshold
    simp only [hunset]

def nodeA : DomNode := .node 7 "div" [] "" []

def matchC2 : ContainerMatch :=
  { container := nodeA, ruleId := "r", ruleType := "css", score := 0.9 }

def cfgC2 : PlatformSelectorConfig :=
  { platform := "x", containerRules := [], fieldRules := [],
    minConfidence := 0.5, adaptiveThreshold := true }

/-- Claim C2, witness. -/
theorem selectThreshold_adaptive_witness :
    ([matchC2] : List ContainerMatch) ≠ [] ∧
    selectThreshold cfgC2 [matchC2] = specAdaptiveThreshold cfgC2.minConfidence [matchC2] :=
  ⟨by simp,
   (selectThreshold_adaptive cfgC2 [matchC2] rfl rfl).1 (by simp)⟩

/-! ## Claim C6: deduplication -/

def matchNid (m : ContainerMatch) : Nat := m.container.nid

/-- Case analysis for one `dedupInsert` step: either no stored entry shares
the node and the candidate is appended, or the first stored entry with the
node is replaced exactly when the candidate's score is strictly greater. -/
theorem dedupInsert_split (acc : List ContainerMatch) (c : ContainerMatch) :
    (dedupInsert acc c = acc ++ [c] ∧ ∀ x ∈ acc, matchNid x ≠ matchNid c)
    ∨ (∃ a1 x a2, acc = a1 ++ x :: a2 ∧ matchNid x = matchNid c
        ∧ (∀ y ∈ a1, matchNid y ≠ matchNid c)
        ∧ dedupInsert acc c = a1 ++ (if x.score < c.score then c else x) :: a2) := by
  induction acc with
  | nil => exact Or.inl ⟨rfl, by simp⟩
  | cons x xs ih =>
    by_cases hx : matchNid x = matchNid c
    · refine Or.inr ⟨[], x, xs, by simp, hx, by simp, ?_⟩
      unfold dedupInsert
      rw [if_pos (by simpa [matchNid] using hx)]
      simp
    · have hstep : dedupInsert (x :: xs) c = x :: dedupInsert xs c := by
        show (if (x.container.nid == c.container.nid) = true
              then (if x.score < c.score then c else x) :: xs
              else x :: dedupInsert xs c) = x :: dedupInsert xs c
        rw [if_neg (by simpa [matchNid] using hx)]
      cases ih with
      | inl h =>
        refine Or.inl ⟨?_, ?_⟩
        · rw [hstep, h.1]; simp
        · intro y hy
          rcases List.mem_cons.mp hy with rfl | hy2
          · exact hx
          · exact h.2 y hy2
      | inr h =>
        obtain ⟨a1, z, a2, hacc, hz, ha1, hd⟩ := h
        refine Or.inr ⟨x :: a1, z, a2, by rw [hacc]; rfl, hz, ?_, ?_⟩
        · intro y hy
          rcases List.mem_cons.mp hy with rfl | hy2
          · exact hx
          · exact ha1 y hy2
        · rw [hstep, hd]; rfl

theorem find?_append_some {p : ContainerMatch → Bool} {l1 : List ContainerMatch}
    (l2 : List ContainerMatch) {m : ContainerMatch} (h : l1.find? p = some m) :
    (l1 ++ l2).find? p = some m := by
  induction l1 with
  | nil => cases h
  | cons x xs ih =>
    rw [List.cons_append]
    by_cases hp : p x
    · rw [List.find?_cons_of_pos _ hp] at h ⊢
      exact h
    · rw [List.find?_cons_of_neg _ (by simpa using hp)] at h ⊢
      exact ih h

theorem find?_append_none {p : ContainerMatch → Bool} {l1 : List ContainerMatch}
    (l2 : List ContainerMatch) (h : l1.find? p = none) :
    (l1 ++ l2).find? p = l2.find? p := by
  induction l1 with
  | nil => rfl
  | cons x xs ih =>
    rw [List.cons_append]
    have hall := List.find?_eq_none.mp h
    have hx : ¬p x = true := hall x (List.mem_cons_self x xs)
    rw [List.find?_cons_of_neg _ hx]
    exact ih (List.find?_eq_none.mpr (fun y hy => hall y (List.mem_cons_of_mem x hy)))

/-- The invariant `deduplicateContainers`'s fold maintains: stored node
identities are distinct; every stored match comes from the processed prefix,
dominates every processed match for its node, and is the first processed
match attaining its node's score; and the stored node set equals the
processed node set. -/
def dedupInv (processed acc : List ContainerMatch) : Prop :=
  (acc.map matchNid).Nodup
  ∧ (∀ m ∈ acc, m ∈ processed
      ∧ (∀ m2 ∈ processed, matchNid m2 = matchNid m → m2.score ≤ m.score)
      ∧ processed.find? (fun x => matchNid x == matchNid m && x.score == m.score) = some m)
  ∧ (∀ n : Nat, (∃ m ∈ processed, matchNid m = n) ↔ (∃ m ∈ acc, matchNid m = n))

theorem dedupInv_step (processed acc : List ContainerMatch) (c : ContainerMatch)
    (h : dedupInv processed acc) : dedupInv (processed ++ [c]) (dedupInsert acc c) := by
  obtain ⟨hnd, hmem, hset⟩ := h
  rcases dedupInsert_split acc c with ⟨heq, hnone⟩ | ⟨a1, x, a2, hacc, hx, ha1, heq⟩
  · have hcnotin : ∀ m2 ∈ processed, matchNid m2 ≠ matchNid c := by
      intro m2 hm2 heq2
      obtain ⟨m3, hm3, hm3n⟩ := (hset (matchNid c)).mp ⟨m2, hm2, heq2⟩
      exact hnone m3 hm3 hm3n
    refine ⟨?_, ?_, ?_⟩
    · rw [heq, List.map_append]
      rw [List.nodup_append]
      refine ⟨hnd, by simp, ?_⟩
      intro a ha hb
      simp only [List.map_cons, List.map_nil, List.mem_singleton] at hb
      subst hb
      obtain ⟨y, hy, hyn⟩ := List.mem_map.mp ha
      exact hnone y hy hyn
    · intro m hm
      rw [heq] at hm
      rcases List.mem_append.mp hm with hm | hm
      · obtain ⟨hmp, hmax, hfind⟩ := hmem m hm
        refine ⟨List.mem_append_left _ hmp, ?_, find?_append_some _ hfind⟩
        intro m2 hm2 hn
        rcases List.mem_append.mp hm2 with hm2 | hm2
        · exact hmax m2 hm2 hn
        · simp only [List.mem_singleton] at hm2
          rw [hm2] at hn
          exact absurd hn.symm (hnone m hm)
      · simp only [List.mem_singleton] at hm
        subst hm
        refine ⟨List.mem_append_right _ (List.mem_singleton_self _), ?_, ?_⟩
        · intro m2 hm2 hn
          rcases List.mem_append.mp hm2 with hm2 | hm2
          · exact absurd hn (hcnotin m2 hm2)
          · simp only [List.mem_singleton] at hm2
            rw [hm2]
        · have hfn : processed.find?
              (fun x => matchNid x == matchNid m && x.score == m.score) = none := by
            apply List.find?_eq_none.mpr
            intro y hy
            simp only [Bool.and_eq_true, beq_iff_eq]
            rintro ⟨hyn, -⟩
            exact hcnotin y hy hyn
          rw [find?_append_none _ hfn]
          rw [List.find?_cons_of_pos _ (by simp)]
    · intro n
      rw [heq]
      simp only [List.mem_append, List.mem_singleton]
      constructor
      · rintro ⟨m, hm | hm, rfl⟩
        · obtain ⟨m2, hm2, hn2⟩ := (hset (matchNid m)).mp ⟨m, hm, rfl⟩
          exact ⟨m2, Or.inl hm2, hn2⟩
        · exact ⟨m, Or.inr hm, rfl⟩
      · rintro ⟨m, hm | hm, rfl⟩
        · obtain ⟨m2, hm2, hn2⟩ := (hset (matchNid m)).mpr ⟨m, hm, rfl⟩
          exact ⟨m2, Or.inl hm2, hn2⟩
        · exact ⟨m, Or.inr hm, rfl⟩
  · -- an entry for the node exists: first occurrence x, possibly replaced
    have hx' : matchNid (if x.score < c.score then c else x) = matchNid x := by
      split
      · exact hx.symm
      · rfl
    have hxacc : x ∈ acc := by rw [hacc]; exact List.mem_append_right _ (List.mem_cons_self _ _)
    obtain ⟨hxp, hxmax, hxfind⟩ := hmem x hxacc
    have hnd2 : ((a1 ++ x :: a2).map matchNid).Nodup := hacc ▸ hnd
    rw [List.map_append, List.map_cons, List.nodup_append] at hnd2
    obtain ⟨hnda1, hndxa2, hdisj⟩ := hnd2
    have hy1 : ∀ y ∈ a1, matchNid y ≠ matchNid x := by
      intro y hy he
      exact hdisj (List.mem_map_of_mem matchNid hy) (by rw [he]; exact List.mem_cons_self _ _)
    have hy2 : ∀ y ∈ a2, matchNid y ≠ matchNid x := by
      intro y hy he
      rw [List.nodup_cons] at hndxa2
      exact hndxa2.1 (he ▸ List.mem_map_of_mem matchNid hy)
    have hsr : ∀ n : Nat, (∃ m ∈ acc, matchNid m = n) ↔
        (∃ m ∈ a1 ++ (if x.score < c.score then c else x) :: a2, matchNid m = n) := by
      intro n
      rw [hacc]
      simp only [List.mem_append, List.mem_cons]
      constructor
      · rintro ⟨m, hm | hm | hm, rfl⟩
        · exact ⟨m, Or.inl hm, rfl⟩
        · subst hm
          exact ⟨_, Or.inr (Or.inl rfl), hx'⟩
        · exact ⟨m, Or.inr (Or.inr hm), rfl⟩
      · rintro ⟨m, hm | hm | hm, rfl⟩
        · exact ⟨m, Or.inl hm, rfl⟩
        · subst hm
          exact ⟨x, Or.inr (Or.inl rfl), hx'.symm⟩
        · exact ⟨m, Or.inr (Or.inr hm), rfl⟩
    refine ⟨?_, ?_, ?_⟩
    · rw [heq, List.map_append, List.map_cons, hx', List.nodup_append]
      rw [List.nodup_cons] at hndxa2 ⊢
      refine ⟨hnda1, ⟨hndxa2.1, hndxa2.2⟩, ?_⟩
      intro a ha hb
      rcases List.mem_cons.mp hb with rfl | hb2
      · obtain ⟨y, hy, hyn⟩ := List.mem_map.mp ha
        exact hy1 y hy hyn
      · exact hdisj ha (List.mem_cons_of_mem _ hb2)
    · intro m hm
      rw [heq] at hm
      have hmacc : m ∈ a1 ∨ m = (if x.score < c.score then c else x) ∨ m ∈ a2 := by
        simpa [List.mem_append, List.mem_cons] using hm
      have hold : m ∈ a1 ∨ m ∈ a2 →
          (m ∈ processed ++ [c]
            ∧ (∀ m2 ∈ processed ++ [c], matchNid m2 = matchNid m → m2.score ≤ m.score)
            ∧ (processed ++ [c]).find?
                (fun y => matchNid y == matchNid m && y.score == m.score) = some m) := by
        intro hcase
        have hmold : m ∈ acc := by
          rw [hacc]
          rcases hcase with hc1 | hc2
          · exact List.mem_append_left _ hc1
          · exact List.mem_append_right _ (List.mem_cons_of_mem _ hc2)
        have hmne : matchNid m ≠ matchNid x := by
          rcases hcase with hc1 | hc2
          · exact hy1 m hc1
          · exact hy2 m hc2
        obtain ⟨hmp, hmax, hfind⟩ := hmem m hmold
        refine ⟨List.mem_append_left _ hmp, ?_, find?_append_some _ hfind⟩
        intro m2 hm2 hn
        rcases List.mem_append.mp hm2 with hm2 | hm2
        · exact hmax m2 hm2 hn
        · simp only [List.mem_singleton] at hm2
          subst hm2
          exact absurd (hx ▸ hn : matchNid x = matchNid m).symm hmne
      rcases hmacc with hc1 | hc2 | hc3
      · exact hold (Or.inl hc1)
      · subst hc2
        by_cases hlt : x.score < c.score
        · simp only [if_pos hlt]
          refine ⟨List.mem_append_right _ (List.mem_singleton_self _), ?_, ?_⟩
          · intro m2 hm2 hn
            rcases List.mem_append.mp hm2 with hm2 | hm2
            · exact le_of_lt (lt_of_le_of_lt (hxmax m2 hm2 (hn.trans hx.symm)) hlt)
            · simp only [List.mem_singleton] at hm2
              rw [hm2]
          · have hfn : processed.find?
                (fun y => matchNid y == matchNid c && y.score == c.score) = none := by
              apply List.find?_eq_none.mpr
              intro y hy
              simp only [Bool.and_eq_true, beq_iff_eq]
              rintro ⟨hyn, hys⟩
              have hle := hxmax y hy (hyn.trans hx.symm)
              rw [hys] at hle
              exact absurd hlt (not_lt_of_le hle)
            rw [find?_append_none _ hfn]
            rw [List.find?_cons_of_pos _ (by simp)]
        · simp only [if_neg hlt]
          refine ⟨List.mem_append_left _ hxp, ?_, find?_append_some _ hxfind⟩
          intro m2 hm2 hn
          rcases List.mem_append.mp hm2 with hm2 | hm2
          · exact hxmax m2 hm2 hn
          · simp only [List.mem_singleton] at hm2
            rw [hm2]
            exact le_of_not_lt hlt
      · exact hold (Or.inr hc3)
    · intro n
      rw [heq]
      rw [← hsr n]
      simp only [List.mem_append, List.mem_singleton]
      constructor
      · rintro ⟨m, hm | hm, rfl⟩
        · exact (hset (matchNid m)).mp ⟨m, hm, rfl⟩
        · subst hm
          exact ⟨x, hxacc, hx⟩
      · rintro ⟨m, hm, rfl⟩
        obtain ⟨m2, hm2, hn2⟩ := (hset (matchNid m)).mpr ⟨m, hm, rfl⟩
        exact ⟨m2, Or.inl hm2, hn2⟩

theorem dedupInv_foldl (l : List ContainerMatch) :
    ∀ (processed acc : List ContainerMatch), dedupInv processed acc →
      dedupInv (processed ++ l) (l.foldl dedupInsert acc)
  | processed, acc, h => by
    induction l generalizing processed acc with
    | nil => simpa using h
    | cons c rest ih =>
      have h2 := dedupInv_step processed acc c h
      have h3 := ih (processed ++ [c]) (dedupInsert acc c) h2
      simpa [List.append_assoc] using h3

theorem deduplicateContainers_inv (l : List ContainerMatch) :
    dedupInv l (deduplicateContainers l) := by
  have h0 : dedupInv [] [] := ⟨by simp, by simp, by simp⟩
  have h := dedupInv_foldl l [] [] h0
  simpa [deduplicateContainers] using h

/-- Claim C6: `deduplicateContainers` returns exactly one match per distinct
node (stored identities are distinct and cover exactly the input's node
set); each returned match is an input match with the highest score among its
node's matches; and it is the first input match attaining that score, so on
ties the match of the earliest-declared rule (earliest in the rule-ordered
raw list) is kept. -/
theorem deduplicateContainers_spec (l : List ContainerMatch) :
    ((deduplicateContainers l).map matchNid).Nodup
    ∧ (∀ n : Nat, (∃ m ∈ l, matchNid m = n) ↔ (∃ m ∈ deduplicateContainers l, matchNid m = n))
    ∧ (∀ m ∈ deduplicateContainers l, m ∈ l
        ∧ (∀ m2 ∈ l, matchNid m2 = matchNid m → m2.score ≤ m.score)
        ∧ l.find? (fun x => matchNid x == matchNid m && x.score == m.score) = some m) := by
  obtain ⟨h1, h2, h3⟩ := deduplicateContainers_inv l
  exact ⟨h1, h3, h2⟩

def matchLow : ContainerMatch :=
  { container := nodeA, ruleId := "a", ruleType := "css", score := 0.5 }

def matchHigh : ContainerMatch :=
  { container := nodeA, ruleId := "b", ruleType := "css", score := 0.9 }

def matchTie : ContainerMatch :=
  { container := nodeA, ruleId := "c", ruleType := "css", score := 0.9 }

/-- Claim C6, witness: three matches for one node with a tie at the top;
the first match attaining the maximal score (rule "b") is the one kept. -/
theorem deduplicateContainers_spec_witness :
    matchHigh ∈ deduplicateContainers [matchLow, matchHigh, matchTie] ∧
    [matchLow, matchHigh, matchTie].find?
      (fun x => matchNid x == matchNid matchHigh && x.score == matchHigh.score) = some matchHigh :=
  ⟨by with_unfolding_all decide,
   ((deduplicateContainers_spec [matchLow, matchHigh, matchTie]).2.2 matchHigh
      (by with_unfolding_all decide)).2.2⟩

/-! ## Claim C8 -/

/-- Claim C8: `findAdContainers` always returns normally, and a rule whose
execution throws (here: is an `Except.error`) is contained at that rule's
scope: the pass's result is the same as if the rule had contributed zero
matches, all other rules and the threshold computation unaffected. -/
theorem findAdContainers_ruleError (config : PlatformSelectorConfig) (doc : DomNode)
    (r : ContainerRule) (pre post : List ContainerRule)
    (herr : executeContainerRule doc r = .error ())
    (hsplit : config.containerRules = pre ++ r :: post) :
    findAdContainers config doc
      = findAdContainers { config with containerRules := pre ++ post } doc := by
  unfold findAdContainers
  rw [hsplit]
  have hcand : (pre ++ r :: post).flatMap (fun rule =>
      match executeContainerRule doc rule with
      | .ok ms => ms
      | .error _ => []) = (pre ++ post).flatMap (fun rule =>
      match executeContainerRule doc rule with
      | .ok ms => ms
      | .error _ => []) := by
    rw [List.flatMap_append, List.flatMap_cons, herr, List.flatMap_append]
    simp
  rw [hcand]
  rfl

def spanW : DomNode := .node 2 "span" [] "Promoted" []

def artW : DomNode := .node 1 "article" [] "" [spanW]

def bodyW : DomNode := .node 0 "body" [] "" [artW]

def cssRuleW : ContainerRule :=
  { id := "r1", rtype := "css", score := 0.9,
    selector := some (.valid (fun n => n.tag == "article")) }

def ruleBad : ContainerRule :=
  { id := "bad", rtype := "css", score := 0.9, selector := some .invalid }

def cfgC8 : PlatformSelectorConfig :=
  { platform := "x", containerRules := [cssRuleW, ruleBad], fieldRules := [],
    minConfidence := 0.5, containerScoreThreshold := some 0.5 }

/-- Claim C8, witness: a css rule with an invalid selector throws, and the
pass's output with it equals the output without it. -/
theorem findAdContainers_ruleError_witness :
    executeContainerRule bodyW ruleBad = .error () ∧
    findAdContainers cfgC8 bodyW
      = findAdContainers { cfgC8 with containerRules := [cssRuleW] ++ [] } bodyW :=
  ⟨by with_unfolding_all decide,
   findAdContainers_ruleError cfgC8 bodyW ruleBad [cssRuleW] []
     (by with_unfolding_all decide) rfl⟩

/-! ## Claim C4 -/

theorem applyNegativeFilters_subset (doc : DomNode) (ms : List ContainerMatch)
    (rule : ContainerRule) (m : ContainerMatch)
    (hm : m ∈ applyNegativeFilters doc ms rule) : m ∈ ms :=
  List.mem_of_mem_filter (List.mem_of_mem_filter (List.mem_of_mem_filter hm))

theorem findAdContainers_mem (config : PlatformSelectorConfig) (doc : DomNode)
    (m : ContainerMatch) (hm : m ∈ findAdContainers config doc) :
    ∃ r ∈ config.containerRules, ∃ ms, executeContainerRule doc r = .ok ms ∧ m ∈ ms := by
  simp only [findAdContainers] at hm
  have hm2 := List.mem_of_mem_filter hm
  have hm3 := (((deduplicateContainers_inv _).2.1) m hm2).1
  obtain ⟨r, hr, hmr⟩ := List.mem_flatMap.mp hm3
  cases hex : executeContainerRule doc r with
  | ok ms =>
    rw [hex] at hmr
    exact ⟨r, hr, ms, hex, hmr⟩
  | error e =>
    rw [hex] at hmr
    cases hmr

theorem executeContainerRule_filters (doc : DomNode) (rule : ContainerRule)
    (ms : List ContainerMatch) (hok : executeContainerRule doc rule = .ok ms)
    (m : ContainerMatch) (hm : m ∈ ms) :
    passesExcludeSelectors rule m = true
    ∧ passesExcludeIfContains rule m = true
    ∧ passesExcludeAncestors doc rule m = true := by
  unfold executeContainerRule at hok
  split at hok
  · cases hok
  · injection hok with h
    subst h
    cases hm
  · split at hok
    · cases hok
    · injection hok with h
      subst h
      exact ⟨List.of_mem_filter (List.mem_of_mem_filter (List.mem_of_mem_filter hm)),
             List.of_mem_filter (List.mem_of_mem_filter hm),
             List.of_mem_filter hm⟩

theorem findContainersByCss_ruleId (rule : ContainerRule) (scope : DomNode)
    (ms : List ContainerMatch) (hok : findContainersByCss rule scope = .ok ms)
    (m : ContainerMatch) (hm : m ∈ ms) : m.ruleId = rule.id := by
  unfold findContainersByCss at hok
  split at hok
  · injection hok with h
    subst h
    cases hm
  · split at hok
    · cases hok
    · injection hok with h
      subst h
      obtain ⟨e, he, rfl⟩ := List.mem_map.mp hm
      rfl

theorem findContainersByAttribute_ruleId (rule : ContainerRule) (scope : DomNode)
    (m : ContainerMatch) (hm : m ∈ findContainersByAttribute rule scope) :
    m.ruleId = rule.id := by
  unfold findContainersByAttribute at hm
  split at hm
  · cases hm
  · obtain ⟨e, he, rfl⟩ := List.mem_map.mp hm
    rfl

theorem buildLabelMatches_ruleId (doc : DomNode) (rule : ContainerRule) :
    ∀ (entries : List LabelEntry) (seen : List Nat) (ms : List ContainerMatch),
      buildLabelMatches doc rule seen entries = .ok ms → ∀ m ∈ ms, m.ruleId = rule.id
  | [], seen, ms, hok, m, hm => by
    injection hok with h
    subst h
    cases hm
  | entry :: rest, seen, ms, hok, m, hm => by
    unfold buildLabelMatches at hok
    split at hok
    · cases hok
    · exact buildLabelMatches_ruleId doc rule rest seen ms hok m hm
    · split at hok
      · exact buildLabelMatches_ruleId doc rule rest seen ms hok m hm
      · split at hok
        · cases hok
        next c _ _ tail hrec =>
          injection hok with h
          subst h
          rcases List.mem_cons.mp hm with rfl | hm2
          · rfl
          · exact buildLabelMatches_ruleId doc rule rest _ tail hrec m hm2

theorem findContainersByLabel_ruleId (doc : DomNode) (rule : ContainerRule)
    (ms : List ContainerMatch) (hok : findContainersByLabel doc rule = .ok ms) :
    ∀ m ∈ ms, m.ruleId = rule.id := by
  unfold findContainersByLabel at hok
  split at hok
  · injection hok with h
    subst h
    intro m hm
    cases hm
  · split at hok
    · injection hok with h
      subst h
      intro m hm
      cases hm
    · split at hok
      · cases hok
      · injection hok with h
        subst h
        intro m hm
        cases hm
      · exact buildLabelMatches_ruleId doc rule _ _ _ hok

theorem dedupBySeen_subset :
    ∀ (seen : List Nat) (l : List ContainerMatch) (m : ContainerMatch),
      m ∈ (dedupBySeen seen l).1 → m ∈ l
  | seen, [], m, hm => by cases hm
  | seen, x :: rest, m, hm => by
    unfold dedupBySeen at hm
    split at hm
    · exact List.mem_cons_of_mem _ (dedupBySeen_subset seen rest m hm)
    · dsimp only at hm
      rcases List.mem_cons.mp hm with rfl | hm2
      · exact List.mem_cons_self _ _
      · exact List.mem_cons_of_mem _ (dedupBySeen_subset _ rest m hm2)

theorem ariaInner_ruleId (doc : DomNode) (rule : ContainerRule) (lt : String) :
    ∀ (els : List DomNode) (seen : List Nat) (r : List ContainerMatch × List Nat),
      ariaInner doc rule lt seen els = .ok r → ∀ m ∈ r.1, m.ruleId = rule.id ++ "-aria"
  | [], seen, r, hok, m, hm => by
    injection hok with h
    subst h
    cases hm
  | e :: rest, seen, r, hok, m, hm => by
    unfold ariaInner at hok
    split at hok
    · split at hok
      · cases hok
      · exact ariaInner_ruleId doc rule lt rest seen r hok m hm
      · split at hok
        · exact ariaInner_ruleId doc rule lt rest seen r hok m hm
        · split at hok
          · cases hok
          next c _ _ r2 hrec =>
            injection hok with h
            subst h
            rcases List.mem_cons.mp hm with rfl | hm2
            · rfl
            · exact ariaInner_ruleId doc rule lt rest _ r2 hrec m hm2
    · exact ariaInner_ruleId doc rule lt rest seen r hok m hm

theorem ariaOuter_ruleId (doc : DomNode) (rule : ContainerRule) :
    ∀ (lts : List String) (seen : List Nat) (ms : List ContainerMatch),
      ariaOuter doc rule seen lts = .ok ms → ∀ m ∈ ms, m.ruleId = rule.id ++ "-aria"
  | [], seen, ms, hok, m, hm => by
    injection hok with h
    subst h
    cases hm
  | lt :: rest, seen, ms, hok, m, hm => by
    unfold ariaOuter at hok
    split at hok
    · cases hok
    next r hinner =>
      split at hok
      · cases hok
      next more houter =>
        injection hok with h
        subst h
        rcases List.mem_append.mp hm with hm2 | hm2
        · exact ariaInner_ruleId doc rule lt _ seen r hinner m hm2
        · exact ariaOuter_ruleId doc rule rest r.2 more houter m hm2

theorem findContainersByLabelAdvanced_ruleId (doc : DomNode) (rule : ContainerRule)
    (ms : List ContainerMatch) (hok : findContainersByLabelAdvanced doc rule = .ok ms) :
    ∀ m ∈ ms, m.ruleId = rule.id ∨ m.ruleId = rule.id ++ "-aria" := by
  unfold findContainersByLabelAdvanced at hok
  split at hok
  · injection hok with h
    subst h
    intro m hm
    cases hm
  · split at hok
    · injection hok with h
      subst h
      intro m hm
      cases hm
    · split at hok
      · cases hok
      next direct hdirect =>
        dsimp only at hok
        split at hok
        · cases hok
        next aria haria2 =>
          injection hok with h
          subst h
          intro m hm
          rcases List.mem_append.mp hm with hm2 | hm2
          · exact Or.inl (findContainersByLabel_ruleId doc rule direct hdirect m
              (dedupBySeen_subset [] direct m hm2))
          · exact Or.inr (ariaOuter_ruleId doc rule _ _ aria haria2 m hm2)

theorem executeContainerRule_ruleId (doc : DomNode) (rule : ContainerRule)
    (ms : List ContainerMatch) (hok : executeContainerRule doc rule = .ok ms) :
    ∀ m ∈ ms, m.ruleId = rule.id ∨ m.ruleId = rule.id ++ "-aria" := by
  unfold executeContainerRule at hok
  split at hok
  · cases hok
  · injection hok with h
    subst h
    intro m hm
    cases hm
  · split at hok
    · cases hok
    next ms0 hbr =>
      injection hok with h
      subst h
      intro m hm
      have hm0 := applyNegativeFilters_subset doc ms0 rule m hm
      split at hbr
      · exact Or.inl (findContainersByCss_ruleId rule _ ms0 hbr m hm0)
      · exact findContainersByLabelAdvanced_ruleId doc rule ms0 hbr m hm0
      · injection hbr with h2
        subst h2
        exact Or.inl (findContainersByAttribute_ruleId rule _ m hm0)
      · injection hbr with h2
        subst h2
        cases hm0

theorem not_violates_of_passes (doc : DomNode) (rule : ContainerRule) (m : ContainerMatch)
    (h1 : passesExcludeSelectors rule m = true)
    (h2 : passesExcludeIfContains rule m = true)
    (h3 : passesExcludeAncestors doc rule m = true) :
    violatesNegativeFilters doc rule m.container = false := by
  unfold passesExcludeSelectors at h1
  unfold passesExcludeIfContains at h2
  unfold passesExcludeAncestors at h3
  unfold violatesNegativeFilters
  simp only [Bool.or_eq_false_iff, List.any_eq_false]
  refine ⟨⟨?_, ?_⟩, ?_⟩
  · intro s hs
    have hall := List.all_eq_true.mp h1 s hs
    cases s with
    | invalid => simp [selMatches]
    | valid p =>
      rw [show selMatches (Selector.valid p) = p from rfl]
      simp only [Bool.and_eq_true, Bool.not_eq_true'] at hall
      simp [hall.1, hall.2]
  · intro phrase hp
    have h2b : ((rule.excludeIfContains.getD []).any fun phrase =>
        strContains m.container.textContent phrase) = false := by
      simpa using h2
    have hf := List.any_eq_false.mp h2b phrase hp
    simpa using hf
  · intro s hs
    have hall := List.all_eq_true.mp h3 s hs
    cases s with
    | invalid => simp [selMatches]
    | valid p =>
      rw [show selMatches (Selector.valid p) = p from rfl]
      have hfn : (selfAndAncestors doc m.container).find? p = none := by simpa using hall
      have hnone := List.find?_eq_none.mp hfn
      simp only [Bool.not_eq_true, List.any_eq_false]
      intro x hx
      exact Bool.not_eq_true (p x) ▸ hnone x (List.mem_of_mem_drop hx)

/-- Claim C4: under distinct rule ids (and no rule id colliding with
another's aria-suffixed id), a match of a given rule surviving in
`findAdContainers`'s output never violates that rule's negative filters:
neither the node nor a descendant matches an `excludeSelectors` entry, the
text contains no `excludeIfContains` substring, and no ancestor matches an
`excludeAncestors` entry (filters are applied per rule before dedup). -/
theorem findAdContainers_negative_filters (config : PlatformSelectorConfig) (doc : DomNode)
    (rule : ContainerRule) (m : ContainerMatch)
    (hrule : rule ∈ config.containerRules)
    (hids : (config.containerRules.map (fun r => r.id)).Nodup)
    (haria : ∀ r ∈ config.containerRules, r.id ++ "-aria" ≠ rule.id)
    (hm : m ∈ findAdContainers config doc)
    (hid : m.ruleId = rule.id) :
    violatesNegativeFilters doc rule m.container = false := by
  obtain ⟨r, hr, ms, hok, hmms⟩ := findAdContainers_mem config doc m hm
  have hreq : r = rule := by
    rcases executeContainerRule_ruleId doc r ms hok m hmms with h | h
    · have hideq : r.id = rule.id := by rw [← h, hid]
      exact List.inj_on_of_nodup_map hids hr hrule hideq
    · rw [h] at hid
      exact absurd hid (haria r hr)
  subst hreq
  obtain ⟨p1, p2, p3⟩ := executeContainerRule_filters doc r ms hok m hmms
  exact not_violates_of_passes doc r m p1 p2 p3

def cfgC4 : PlatformSelectorConfig :=
  { platform := "x", containerRules := [cssRuleW], fieldRules := [],
    minConfidence := 0.5, containerScoreThreshold := some 0.5 }

def matchC4 : ContainerMatch :=
  { container := artW, ruleId := "r1", ruleType := "css", score := 0.9 }

/-- Claim C4, witness. -/
theorem findAdContainers_negative_filters_witness :
    matchC4 ∈ findAdContainers cfgC4 bodyW ∧
    violatesNegativeFilters bodyW cssRuleW matchC4.container = false :=
  ⟨by with_unfolding_all decide,
   findAdContainers_negative_filters cfgC4 bodyW cssRuleW matchC4
     (by simp [cfgC4])
     (by decide)
     (by decide)
     (by with_unfolding_all decide)
     (by decide)⟩

/-! ## Claim C5: fallback ordering of field extraction -/

theorem extractField_findSome (env : JsEnv) (doc : DomNode) (container : DomNode)
    (field : AdField) (ctx : Option DomNode) (rs : List FieldRule) :
    extractField env doc container field ctx rs =
      rs.findSome? (fun r =>
        (attemptFieldRule env doc container field ctx r).map (mkExtraction field r)) := by
  induction rs with
  | nil => rfl
  | cons r rest ih =>
    show (match attemptFieldRule env doc container field ctx r with
          | some v => some (mkExtraction field r v)
          | none => extractField env doc container field ctx rest) = _
    rw [List.findSome?_cons]
    cases attemptFieldRule env doc container field ctx r with
    | some v => rfl
    | none => simpa using ih

theorem extractFields_foldl (env : JsEnv) (doc : DomNode) (container : DomNode)
    (ctx : Option DomNode) (gs : List (AdField × List FieldRule))
    (fd : FieldData) (acc : List FieldExtraction) :
    (gs.foldl (fun acc g =>
      match extractField env doc container g.1 ctx g.2 with
      | some ex => (setFieldValue acc.1 g.1 ex.value, acc.2 ++ [ex])
      | none => acc) (fd, acc)).2 =
      acc ++ gs.filterMap (fun g => extractField env doc container g.1 ctx g.2) := by
  induction gs generalizing fd acc with
  | nil => simp
  | cons g rest ih =>
    rw [List.foldl_cons, List.filterMap_cons]
    cases hx : extractField env doc container g.1 ctx g.2 with
    | some ex =>
      show (rest.foldl _ (setFieldValue fd g.1 ex.value, acc ++ [ex])).2 = _
      rw [ih]
      simp
    | none =>
      show (rest.foldl _ (fd, acc)).2 = _
      rw [ih]

def docC5 : DomNode :=
  DomNode.node 0 "body" [] ""
    [DomNode.node 10 "div" [] ""
      [DomNode.node 11 "a" [("href", " ")] "" [],
       DomNode.node 12 "span" [] "hello" []]]

def contC5 : DomNode :=
  DomNode.node 10 "div" [] ""
    [DomNode.node 11 "a" [("href", " ")] "" [],
     DomNode.node 12 "span" [] "hello" []]

def r1C5 : FieldRule :=
  { id := "r1", field := AdField.headline,
    selector := Selector.valid (fun n => n.tag == "a"),
    attr := some "href", score := 1 }

def r2C5 : FieldRule :=
  { id := "r2", field := AdField.headline,
    selector := Selector.valid (fun n => n.tag == "span"), score := 0.8 }

/-- Claim C5, counterexample: with headline rules scored `[1.0, 0.8]`, the
1.0 rule resolving to a whitespace-only `href` attribute yields the empty
string after trimming, yet `extractField` stops there and records the 1.0
rule with value `""` — it does not fall back to the 0.8 rule's non-empty
value as the claim (first rule with a NON-EMPTY value) predicts. -/
theorem extractField_firstNonEmpty_counterexample :
    extractField testEnv docC5 contC5 AdField.headline none
        (sortByScoreDesc [r1C5, r2C5]) =
      some { field := AdField.headline, value := FieldValue.str "", ruleId := "r1", score := 1 } ∧
    specFirstNonEmpty testEnv docC5 contC5 AdField.headline none [r1C5, r2C5] =
      some { field := AdField.headline, value := FieldValue.str "hello", ruleId := "r2",
             score := 0.8 } := by
  constructor
  · with_unfolding_all decide
  · with_unfolding_all decide

/-- Claim C5, amended: `extractFields` groups the rules by field, sorts each
group by score descending (stably, so ties keep declaration order), and for
each field records the extraction of the first rule in that order whose
attempt produces a value — any value, including the empty string left by a
whitespace-only attribute, not the first NON-EMPTY value as claimed. -/
theorem extractFields_fallback_order (env : JsEnv) (doc : DomNode)
    (container : DomNode) (rules : List FieldRule) (ctx : Option DomNode) :
    (extractFields env doc container rules ctx).2 =
      ((groupFields rules).map (fun g => (g.1, sortByScoreDesc g.2))).filterMap
        (fun g => extractField env doc container g.1 ctx g.2) ∧
    ∀ field rs, extractField env doc container field ctx rs =
      rs.findSome? (fun r =>
        (attemptFieldRule env doc container field ctx r).map (mkExtraction field r)) := by
  constructor
  · simp only [extractFields]
    rw [extractFields_foldl]
    simp
  · exact fun field rs => extractField_findSome env doc container field ctx rs

/-! ## Claim C7: label-led confidence grading -/

theorem labelEntryFor_confidence (e : DomNode) (lt : String) :
    (labelEntryFor e lt).confidence = specLabelConfidence lt e := by
  unfold labelEntryFor specLabelConfidence
  split
  · rfl
  · cases getTextDepth lt e 0 with
    | none => rfl
    | some d =>
      dsimp only
      split
      · rfl
      · split <;> rfl

theorem labelEntryFor_element (e : DomNode) (lt : String) :
    (labelEntryFor e lt).element = e := by
  unfold labelEntryFor
  split
  · rfl
  · cases getTextDepth lt e 0 with
    | none => rfl
    | some d =>
      dsimp only
      split
      · rfl
      · split <;> rfl

theorem findLabelElements_mem (scope : DomNode) (lts : List String) (entry : LabelEntry)
    (h : entry ∈ findLabelElements scope lts) :
    ∃ lt ∈ lts, entry = labelEntryFor entry.element lt ∧
      entry.confidence = specLabelConfidence lt entry.element := by
  unfold findLabelElements at h
  rw [List.mem_filterMap] at h
  obtain ⟨e, _, he⟩ := h
  rw [Option.map_eq_some'] at he
  obtain ⟨lt, hfind, hentry⟩ := he
  have hlt : lt ∈ lts := List.mem_of_find?_eq_some hfind
  have helem : entry.element = e := by rw [← hentry, labelEntryFor_element]
  refine ⟨lt, hlt, ?_, ?_⟩
  · rw [helem, hentry]
  · rw [helem, ← hentry, labelEntryFor_confidence]

theorem buildLabelMatches_mem (doc : DomNode) (rule : ContainerRule)
    (entries : List LabelEntry) (seen : List Nat) (ms : List ContainerMatch)
    (m : ContainerMatch) (hok : buildLabelMatches doc rule seen entries = .ok ms)
    (hm : m ∈ ms) :
    ∃ entry ∈ entries, ∃ c,
      findContainerFromLabel doc entry.element rule.containerSelector 10 = .ok (some c) ∧
      m = { container := c, ruleId := rule.id, ruleType := "label-led",
            score := rule.score * entry.confidence,
            labelElement := some entry.labelElement,
            labelConfidence := some entry.confidence } := by
  induction entries generalizing seen ms with
  | nil =>
    rw [buildLabelMatches] at hok
    cases hok
    cases hm
  | cons entry rest ih =>
    rw [buildLabelMatches] at hok
    split at hok
    · exact absurd hok (by simp)
    · obtain ⟨e2, h2, c2, hc2, hm2⟩ := ih _ _ hok hm
      exact ⟨e2, List.mem_cons_of_mem _ h2, c2, hc2, hm2⟩
    · rename_i c hfc
      split at hok
      · obtain ⟨e2, h2, c2, hc2, hm2⟩ := ih _ _ hok hm
        exact ⟨e2, List.mem_cons_of_mem _ h2, c2, hc2, hm2⟩
      · split at hok
        · exact absurd hok (by simp)
        · rename_i tail htail
          cases hok
          rcases List.mem_cons.mp hm with hhead | htl
          · exact ⟨entry, List.mem_cons_self _ _, c, hfc, hhead⟩
          · obtain ⟨e2, h2, c2, hc2, hm2⟩ := ih _ _ htail htl
            exact ⟨e2, List.mem_cons_of_mem _ h2, c2, hc2, hm2⟩

/-- Claim C7: every match produced by the label-led text-content strategy
(`findContainersByLabel`) stems from a label entry whose confidence follows
the nesting-depth grading of the specification (1.0 for a direct whole-word
hit, 0.9 at depth at most 2, 0.8 at depth at most 4, 0.7 deeper), and the
match records `score = rule.score * labelConfidence` together with that
confidence and the label element. -/
theorem findContainersByLabel_labelConfidence (doc : DomNode) (rule : ContainerRule)
    (ms : List ContainerMatch) (m : ContainerMatch)
    (hok : findContainersByLabel doc rule = .ok ms) (hm : m ∈ ms) :
    ∃ lts scope, rule.labelTexts = some lts ∧
      labelScope doc rule = .ok (some scope) ∧
      ∃ entry ∈ findLabelElements scope lts, ∃ lt ∈ lts,
        entry.confidence = specLabelConfidence lt entry.element ∧
        m.score = rule.score * entry.confidence ∧
        m.labelConfidence = some entry.confidence ∧
        m.labelElement = some entry.labelElement ∧
        m.ruleId = rule.id ∧ m.ruleType = "label-led" := by
  unfold findContainersByLabel at hok
  split at hok
  · cases hok; cases hm
  · rename_i lts hlts
    split at hok
    · cases hok; cases hm
    · split at hok
      · exact absurd hok (by simp)
      · cases hok; cases hm
      · rename_i scope hscope
        obtain ⟨entry, hentry, c, _, hmeq⟩ :=
          buildLabelMatches_mem doc rule _ [] ms m hok hm
        obtain ⟨lt, hlt, _, hconf⟩ := findLabelElements_mem scope lts entry hentry
        exact ⟨lts, scope, hlts, hscope, entry, hentry, lt, hlt, hconf,
          by rw [hmeq], by rw [hmeq], by rw [hmeq], by rw [hmeq], by rw [hmeq]⟩

def lruleC7 : ContainerRule :=
  { id := "lr", rtype := "label-led", score := 0.8,
    labelTexts := some ["Promoted"] }

def mC7 : ContainerMatch :=
  { container := artW, ruleId := "lr", ruleType := "label-led",
    score := 0.8, labelElement := some spanW, labelConfidence := some 1 }

/-- Claim C7, witness. -/
theorem findContainersByLabel_labelConfidence_witness :
    findContainersByLabel bodyW lruleC7 = .ok [mC7] ∧
    (∃ lts scope, lruleC7.labelTexts = some lts ∧
      labelScope bodyW lruleC7 = .ok (some scope) ∧
      ∃ entry ∈ findLabelElements scope lts, ∃ lt ∈ lts,
        entry.confidence = specLabelConfidence lt entry.element ∧
        mC7.score = lruleC7.score * entry.confidence ∧
        mC7.labelConfidence = some entry.confidence ∧
        mC7.labelElement = some entry.labelElement ∧
        mC7.ruleId = lruleC7.id ∧ mC7.ruleType = "label-led") :=
  ⟨by with_unfolding_all decide,
   findContainersByLabel_labelConfidence bodyW lruleC7 [mC7] mC7
     (by with_unfolding_all decide) (List.mem_singleton.mpr rfl)⟩

/-! ## Claim C9: config validator — critical-field warning vs selector error -/

theorem validateFieldRule_added : validateFieldRule addedRuleC9 = [] := by
  with_unfolding_all decide

theorem configErrors_addDest (config : PlatformSelectorConfig)
    (h : config.fieldRules ≠ []) :
    configErrors (addDestinationUrlRule config) = configErrors config := by
  have hne : config.fieldRules.isEmpty = false := by
    cases hx : config.fieldRules with
    | nil => exact absurd hx h
    | cons a l => rfl
  unfold configErrors addDestinationUrlRule
  simp [List.flatMap_append, validateFieldRule_added, hne]

theorem validateContainerRule_malformed (r : ContainerRule)
    (h : ((r.rtype == "css" && (match r.selector with
            | some s => !s.isValid
            | none => false))
          || (r.rtype == "label-led" && (match r.containerSelector with
            | some s => !s.isValid
            | none => false))
          || (r.excludeSelectors.getD []).any (fun s => !s.isValid)
          || (r.excludeAncestors.getD []).any (fun s => !s.isValid)) = true) :
    ∃ e ∈ validateContainerRule r, e.vkind = VKind.error := by
  simp only [Bool.or_eq_true, Bool.and_eq_true] at h
  rcases h with ((⟨hrt, hsel⟩ | ⟨hrt, hsel⟩) | hc) | hd
  · have hrtype : r.rtype = "css" := eq_of_beq hrt
    cases hs : r.selector with
    | none => rw [hs] at hsel; cases hsel
    | some s =>
      rw [hs] at hsel
      cases s with
      | valid p => cases hsel
      | invalid =>
        refine ⟨{ vkind := .error, message := "Invalid CSS selector: Invalid selector",
                  ruleId := some r.id, location := some "selector" }, ?_, rfl⟩
        simp [validateContainerRule, hrtype, hs, validateCssSelector]
  · have hrtype : r.rtype = "label-led" := eq_of_beq hrt
    cases hs : r.containerSelector with
    | none => rw [hs] at hsel; cases hsel
    | some s =>
      rw [hs] at hsel
      cases s with
      | valid p => cases hsel
      | invalid =>
        refine ⟨{ vkind := .error, message := "Invalid container selector: Invalid selector",
                  ruleId := some r.id, location := some "containerSelector" }, ?_, rfl⟩
        simp [validateContainerRule, hrtype, hs, validateCssSelector]
  · obtain ⟨s, hsmem, hsv⟩ := List.any_eq_true.mp hc
    cases s with
    | valid p => cases hsv
    | invalid =>
      refine ⟨{ vkind := .error, message := "Invalid exclude selector: Invalid selector",
                ruleId := some r.id, location := some "excludeSelectors" }, ?_, rfl⟩
      simp only [validateContainerRule, List.mem_append]
      refine Or.inl (Or.inr ?_)
      exact List.mem_flatMap.mpr ⟨Selector.invalid, hsmem, by simp [validateCssSelector]⟩
  · obtain ⟨s, hsmem, hsv⟩ := List.any_eq_true.mp hd
    cases s with
    | valid p => cases hsv
    | invalid =>
      refine ⟨{ vkind := .error, message := "Invalid ancestor selector: Invalid selector",
                ruleId := some r.id, location := some "excludeAncestors" }, ?_, rfl⟩
      simp only [validateContainerRule, List.mem_append]
      refine Or.inr ?_
      exact List.mem_flatMap.mpr ⟨Selector.invalid, hsmem, by simp [validateCssSelector]⟩

theorem validateFieldRule_malformed (fr : FieldRule)
    (h : (!fr.selector.isValid) = true) :
    ∃ e ∈ validateFieldRule fr, e.vkind = VKind.error := by
  cases hs : fr.selector with
  | valid p => rw [hs] at h; cases h
  | invalid =>
    refine ⟨{ vkind := .error, message := "Invalid CSS selector: Invalid selector",
              ruleId := some fr.id, location := some "selector" }, ?_, rfl⟩
    simp [validateFieldRule, hs, validateCssSelector]

/-- Claim C9: `validateConfig` treats a missing extractor for the critical
field `destinationUrl` as a warning only — the warning is emitted whenever no
field rule targets that field, and adding a well-formed destinationUrl
extractor leaves the valid flag unchanged — while a malformed CSS selector in
any selector-bearing position (a css rule selector, a label-led container
selector, an exclude or exclude-ancestor entry, or a field rule selector)
yields an error and forces valid = false; valid holds exactly when the error
list is empty. -/
theorem validateConfig_critical_vs_malformed (config : PlatformSelectorConfig) :
    ((validateConfig config).valid = true ↔ (validateConfig config).errors = []) ∧
    ((∀ fr ∈ config.fieldRules, fr.field ≠ AdField.destinationUrl) →
      criticalFieldWarning "destinationUrl" ∈ (validateConfig config).warnings) ∧
    (config.fieldRules ≠ [] →
      (validateConfig (addDestinationUrlRule config)).valid = (validateConfig config).valid) ∧
    (hasMalformedSelector config = true → (validateConfig config).valid = false) := by
  refine ⟨?_, ?_, ?_, ?_⟩
  · simp only [validateConfig]
    exact List.isEmpty_iff
  · intro hno
    simp [validateConfig, configWarnings, criticalFieldWarning]
    exact Or.inr (Or.inr (Or.inr hno))
  · intro h
    simp [validateConfig, configErrors_addDest config h]
  · intro h
    simp only [hasMalformedSelector, Bool.or_eq_true] at h
    have hmem : ∃ e ∈ configErrors config, e.vkind = VKind.error := by
      rcases h with hc | hf
      · obtain ⟨r, hr, hpred⟩ := List.any_eq_true.mp hc
        obtain ⟨e, he, hek⟩ := validateContainerRule_malformed r hpred
        refine ⟨e, ?_, hek⟩
        simp only [configErrors, List.mem_append]
        refine Or.inl (Or.inl (Or.inl (Or.inl (Or.inr ?_))))
        exact List.mem_flatMap.mpr ⟨r, hr, List.mem_filter.mpr ⟨he, by simp only [isErrKind, hek]; rfl⟩⟩
      · obtain ⟨fr, hfr, hpred⟩ := List.any_eq_true.mp hf
        obtain ⟨e, he, hek⟩ := validateFieldRule_malformed fr hpred
        refine ⟨e, ?_, hek⟩
        simp only [configErrors, List.mem_append]
        refine Or.inl (Or.inl (Or.inl (Or.inr ?_)))
        exact List.mem_flatMap.mpr ⟨fr, hfr, List.mem_filter.mpr ⟨he, by simp only [isErrKind, hek]; rfl⟩⟩
    obtain ⟨e, hmem, _⟩ := hmem
    cases hcfg : configErrors config with
    | nil => rw [hcfg] at hmem; cases hmem
    | cons a l => simp [validateConfig, hcfg]

def frBadC9 : FieldRule :=
  { id := "f1", field := AdField.headline, selector := Selector.invalid, score := 0.5 }

def cfgC9 : PlatformSelectorConfig :=
  { platform := "x", containerRules := [cssRuleW], fieldRules := [r2C5],
    minConfidence := 0.5 }

def cfgC9bad : PlatformSelectorConfig :=
  { platform := "x", containerRules := [cssRuleW], fieldRules := [frBadC9],
    minConfidence := 0.5 }

/-- Claim C9, witness. -/
theorem validateConfig_critical_vs_malformed_witness :
    criticalFieldWarning "destinationUrl" ∈ (validateConfig cfgC9).warnings ∧
    (validateConfig (addDestinationUrlRule cfgC9)).valid = (validateConfig cfgC9).valid ∧
    (validateConfig cfgC9bad).valid = false :=
  ⟨(validateConfig_critical_vs_malformed cfgC9).2.1 (by with_unfolding_all decide),
   (validateConfig_critical_vs_malformed cfgC9).2.2.1 (List.cons_ne_nil _ _),
   (validateConfig_critical_vs_malformed cfgC9bad).2.2.2 (by with_unfolding_all decide)⟩

/-! ## Claim C3: threshold monotonicity -/

theorem validateAdCandidate_valid_mono (env : JsEnv) (fields : FieldData)
    (vs : List ValidationRule) (a b : ℚ) (hab : a ≤ b)
    (h : (validateAdCandidate env fields vs b).valid = true) :
    (validateAdCandidate env fields vs a).valid = true := by
  unfold validateAdCandidate at h ⊢
  dsimp only at h ⊢
  rw [decide_eq_true_iff] at h ⊢
  exact le_trans hab h

theorem createDefaultValidation_valid_mono (fields : FieldData) (a b : ℚ) (hab : a ≤ b)
    (h : (createDefaultValidation fields b).valid = true) :
    (createDefaultValidation fields a).valid = true := by
  unfold createDefaultValidation at h ⊢
  dsimp only at h ⊢
  rw [decide_eq_true_iff] at h ⊢
  exact le_trans hab h

theorem candidateValidation_valid_mono (env : JsEnv) (config : PlatformSelectorConfig)
    (doc : DomNode) (m : ContainerMatch) (a b : ℚ) (hab : a ≤ b)
    (h : (candidateValidation env { config with minConfidence := b } doc m).2.2.valid = true) :
    (candidateValidation env { config with minConfidence := a } doc m).2.2.valid = true := by
  unfold candidateValidation at h ⊢
  dsimp only at h ⊢
  cases hv : config.validators with
  | none =>
    rw [hv] at h
    exact createDefaultValidation_valid_mono _ a b hab h
  | some vs =>
    rw [hv] at h
    dsimp only at h ⊢
    by_cases hlen : 0 < vs.length
    · simp only [if_pos hlen] at h ⊢
      exact validateAdCandidate_valid_mono env _ vs a b hab h
    · simp only [if_neg hlen] at h ⊢
      exact createDefaultValidation_valid_mono _ a b hab h

theorem calculateDynamicThreshold_mono (ms : List ContainerMatch)
    (config : PlatformSelectorConfig) (a b : ℚ) (hab : a ≤ b) :
    calculateDynamicThreshold ms { config with minConfidence := a } ≤
    calculateDynamicThreshold ms { config with minConfidence := b } := by
  unfold calculateDynamicThreshold
  cases ms with
  | nil => exact le_refl _
  | cons m rest =>
    dsimp only
    split
    · exact min_le_min (max_le_max (max_le_max le_rfl hab) hab) le_rfl
    · exact min_le_min (max_le_max le_rfl hab) le_rfl

theorem selectThreshold_mono (config : PlatformSelectorConfig)
    (ms : List ContainerMatch) (a b : ℚ) (hab : a ≤ b) :
    selectThreshold { config with minConfidence := a } ms ≤
    selectThreshold { config with minConfidence := b } ms := by
  unfold selectThreshold
  dsimp only
  cases ht : config.containerScoreThreshold with
  | some t => exact le_refl t
  | none =>
    dsimp only
    by_cases hA : config.adaptiveThreshold = true
    · rw [if_pos hA, if_pos hA]
      exact calculateDynamicThreshold_mono ms { config with containerScoreThreshold := none } a b hab
    · rw [if_neg hA, if_neg hA]

theorem filter_threshold_sublist (l : List ContainerMatch) (ta tb : ℚ) (h : ta ≤ tb) :
    List.Sublist (l.filter (fun m => decide (tb ≤ m.score)))
      (l.filter (fun m => decide (ta ≤ m.score))) :=
  List.monotone_filter_right l (fun _ hm =>
    decide_eq_true (le_trans h (of_decide_eq_true hm)))

theorem findAdContainers_mono (config : PlatformSelectorConfig) (doc : DomNode)
    (a b : ℚ) (hab : a ≤ b) :
    List.Sublist (findAdContainers { config with minConfidence := b } doc)
      (findAdContainers { config with minConfidence := a } doc) := by
  unfold findAdContainers
  dsimp only
  exact filter_threshold_sublist _ _ _ (selectThreshold_mono config _ a b hab)

theorem findAdContainers_nidNodup (config : PlatformSelectorConfig) (doc : DomNode) :
    ((findAdContainers config doc).map matchNid).Nodup := by
  unfold findAdContainers
  dsimp only
  exact List.Nodup.sublist (List.Sublist.map matchNid (List.filter_sublist _))
    (deduplicateContainers_inv _).1

theorem detectLoop_length (env : JsEnv) (config : PlatformSelectorConfig) (doc : DomNode)
    (ms : List ContainerMatch) (seen : List Nat)
    (hnd : (ms.map matchNid).Nodup)
    (hdisj : ∀ m ∈ ms, seen.contains (matchNid m) = false) :
    (detectLoop env config doc seen ms).length =
      (ms.filter (fun m => (candidateValidation env config doc m).2.2.valid)).length := by
  induction ms generalizing seen with
  | nil => rfl
  | cons m rest ih =>
    have hc := hdisj m (List.mem_cons_self _ _)
    have hnd2 : (∀ x ∈ rest, matchNid x ≠ matchNid m) ∧ (rest.map matchNid).Nodup := by
      simpa using hnd
    obtain ⟨hnotmem, hndrest⟩ := hnd2
    have hdisj2 : ∀ x ∈ rest, (m.container.nid :: seen).contains (matchNid x) = false := by
      intro x hx
      have hne : matchNid x ≠ matchNid m := hnotmem x hx
      simp only [List.contains_cons, Bool.or_eq_false_iff]
      refine ⟨?_, hdisj x (List.mem_cons_of_mem _ hx)⟩
      simpa [matchNid] using hne
    rw [detectLoop, if_neg (by simp [matchNid] at hc; simp [hc])]
    dsimp only
    rw [List.filter_cons]
    by_cases hval : (candidateValidation env config doc m).2.2.valid = true
    · rw [if_pos hval, if_pos (by simpa using hval)]
      simp only [List.length_cons]
      rw [ih _ hndrest hdisj2]
    · rw [if_neg hval, if_neg (by simpa using hval)]
      rw [ih _ hndrest hdisj2]

/-- Claim C3: for a fixed document and rule set, raising `minConfidence`
(all other configuration fields equal) never increases the number of
accepted candidates returned by `detectAds` with a fresh empty seen-set. -/
theorem detectAds_threshold_monotone (env : JsEnv) (config : PlatformSelectorConfig)
    (doc : DomNode) (a b : ℚ) (hab : a ≤ b) :
    (detectAds env { config with minConfidence := b } [] doc).length ≤
    (detectAds env { config with minConfidence := a } [] doc).length := by
  unfold detectAds
  rw [detectLoop_length env _ doc _ [] (findAdContainers_nidNodup _ doc) (fun _ _ => rfl),
      detectLoop_length env _ doc _ [] (findAdContainers_nidNodup _ doc) (fun _ _ => rfl)]
  have h1 : List.Sublist
      ((findAdContainers { config with minConfidence := b } doc).filter
        (fun m => (candidateValidation env { config with minConfidence := b } doc m).2.2.valid))
      ((findAdContainers { config with minConfidence := a } doc).filter
        (fun m => (candidateValidation env { config with minConfidence := b } doc m).2.2.valid)) :=
    List.Sublist.filter _ (findAdContainers_mono config doc a b hab)
  have h2 : List.Sublist
      ((findAdContainers { config with minConfidence := a } doc).filter
        (fun m => (candidateValidation env { config with minConfidence := b } doc m).2.2.valid))
      ((findAdContainers { config with minConfidence := a } doc).filter
        (fun m => (candidateValidation env { config with minConfidence := a } doc m).2.2.valid)) :=
    List.monotone_filter_right _ (fun m hm =>
      candidateValidation_valid_mono env config doc m a b hab hm)
  exact (h1.trans h2).length_le

def cfgC3 : PlatformSelectorConfig :=
  { platform := "x", containerRules := [cssRuleW], fieldRules := [],
    minConfidence := 0, adaptiveThreshold := true }

/-- Claim C3, witness. -/
theorem detectAds_threshold_monotone_witness :
    (0.3 : ℚ) ≤ 0.9 ∧
    (detectAds testEnv { cfgC3 with minConfidence := 0.9 } [] bodyW).length ≤
      (detectAds testEnv { cfgC3 with minConfidence := 0.3 } [] bodyW).length :=
  ⟨by norm_num,
   detectAds_threshold_monotone testEnv cfgC3 bodyW 0.3 0.9 (by norm_num)⟩
